import Mathlib

/-!
# A verification model of the `sync_music` incremental synchronization engine

This file gives a shallow embedding, in Lean 4, of the core of the
`sync_music` program (`sync_music/sync_music.py`, `sync_music/hashdb.py`,
`sync_music/util.py`) and proves properties of that embedding.

Modelling conventions:

* Paths are plain strings (the Python code manipulates relative paths as
  strings / `pathlib` values).
* File contents are byte lists (`List Nat`).
* A directory tree of files is an association list from path to content;
  `lookupA` models existence tests and reads, `setA` models writes and
  `removeA` models `unlink`.
* The persistent hash database (`HashDb._database`, a Python `dict`) is an
  association list from source path to an `(out_filename, hash)` pair.
* Python exceptions that escape a function are modelled with
  `Except String`; exceptions caught inside a function (e.g. the `IOError`
  handler in `_process_file` and the `OSError` handler in
  `_clean_up_missing_files`) are modelled by explicit case splits, with
  oracle fields in `Args` deciding whether a given OS operation fails.
* `hashlib.md5(...).hexdigest()` is abstracted as a function parameter
  `md5 : List Nat → String`; the part of `HashDb.calculate_hash` that the
  code owns — reading only the first 4096 bytes — is kept explicit.
* The run is modelled with the sequential execution path (`args.jobs == 1`
  in `sync_audio`); the worker pool never mutates the database, results are
  committed serially by the orchestrator in both paths.
-/

namespace SyncMusic

abbrev Bytes := List Nat
abbrev Path := String

/-! ## Association list primitives (Python `dict` / directory tree model) -/

/-- First-match lookup in an association list. -/
def lookupA {α : Type} : List (Path × α) → Path → Option α
  | [], _ => none
  | (k, v) :: rest, p => if k = p then some v else lookupA rest p

/-- Update-or-append, keeping the position of an existing key
(Python `d[k] = v`). -/
def setA {α : Type} : List (Path × α) → Path → α → List (Path × α)
  | [], p, v => [(p, v)]
  | (k, w) :: rest, p, v =>
    if k = p then (k, v) :: rest else (k, w) :: setA rest p v

/-- Remove all entries with the given key (Python `del d[k]` on a dict with
unique keys, or `unlink` on a file tree). -/
def removeA {α : Type} : List (Path × α) → Path → List (Path × α)
  | [], _ => []
  | (k, w) :: rest, p =>
    if k = p then removeA rest p else (k, w) :: removeA rest p

@[simp] theorem lookupA_nil {α : Type} (p : Path) :
    lookupA ([] : List (Path × α)) p = none := rfl

@[simp] theorem lookupA_cons {α : Type} (k : Path) (v : α)
    (rest : List (Path × α)) (p : Path) :
    lookupA ((k, v) :: rest) p = if k = p then some v else lookupA rest p := rfl

theorem lookupA_setA_self {α : Type} (l : List (Path × α)) (p : Path) (v : α) :
    lookupA (setA l p v) p = some v := by
  induction l with
  | nil => simp [setA]
  | cons kv rest ih =>
    obtain ⟨k, w⟩ := kv
    by_cases h : k = p <;> simp [setA, h, ih]

theorem lookupA_setA_ne {α : Type} (l : List (Path × α)) (p q : Path) (v : α)
    (h : p ≠ q) : lookupA (setA l p v) q = lookupA l q := by
  induction l with
  | nil => simp [setA, h]
  | cons kv rest ih =>
    obtain ⟨k, w⟩ := kv
    by_cases hk : k = p
    · subst hk; simp [setA, h]
    · simp [setA, hk, ih]

theorem lookupA_removeA_self {α : Type} (l : List (Path × α)) (p : Path) :
    lookupA (removeA l p) p = none := by
  induction l with
  | nil => simp [removeA]
  | cons kv rest ih =>
    obtain ⟨k, w⟩ := kv
    by_cases h : k = p <;> simp [removeA, h, ih]

theorem lookupA_removeA_ne {α : Type} (l : List (Path × α)) (p q : Path)
    (h : p ≠ q) : lookupA (removeA l p) q = lookupA l q := by
  induction l with
  | nil => simp [removeA]
  | cons kv rest ih =>
    obtain ⟨k, w⟩ := kv
    by_cases hk : k = p
    · subst hk; simp [removeA, h, ih]
    · simp [removeA, hk, ih]

theorem lookupA_mem {α : Type} {l : List (Path × α)} {k : Path} {v : α}
    (h : lookupA l k = some v) : (k, v) ∈ l := by
  induction l with
  | nil => simp [lookupA] at h
  | cons kv rest ih =>
    obtain ⟨k', w⟩ := kv
    by_cases hk : k' = k
    · subst hk
      simp [lookupA] at h
      subst h
      exact List.mem_cons_self _ _
    · simp [lookupA, hk] at h
      exact List.mem_cons_of_mem _ (ih h)

theorem lookupA_isSome_of_mem_keys {α : Type} {l : List (Path × α)} {k : Path}
    (h : k ∈ l.map Prod.fst) : lookupA l k ≠ none := by
  induction l with
  | nil => simp at h
  | cons kv rest ih =>
    obtain ⟨k', w⟩ := kv
    rcases List.mem_cons.mp h with h1 | h2
    · simp at h1
      simp [lookupA, h1]
    · by_cases hk : k' = k
      · simp [lookupA, hk]
      · simp [lookupA, hk]
        exact ih h2

theorem mem_keys_of_lookupA {α : Type} {l : List (Path × α)} {k : Path}
    (h : lookupA l k ≠ none) : k ∈ l.map Prod.fst := by
  induction l with
  | nil => simp [lookupA] at h
  | cons kv rest ih =>
    obtain ⟨k', w⟩ := kv
    by_cases hk : k' = k
    · simp [hk]
    · simp [lookupA, hk] at h
      simpa using Or.inr (ih h)

/-! ## `util.py` -/

/-- The characters matched by the regular expression
`[\\|:|*|?|"|<|>|\|]` in `util.correct_path_fat32` (a character class,
so its members are backslash, `|`, `:`, `*`, `?`, `"`, `<`, `>`). -/
def fat32IllegalChars : List Char := ['\\', '|', ':', '*', '?', '"', '<', '>']

/-- Character-wise substitution performed by
`re.sub(r'[\\|:|*|?|"|<|>|\|]', '_', filename)`: every character matched by
the class is replaced by `_`. -/
def fat32Sub : List Char → List Char
  | [] => []
  | c :: cs => (if c ∈ fat32IllegalChars then '_' else c) :: fat32Sub cs

/-- `util.correct_path_fat32`: replace illegal characters in FAT32
filenames with `_`. -/
def correct_path_fat32 (filename : String) : String :=
  ⟨fat32Sub filename.data⟩

/-- Python `str.split("/")` on the characters of a path or playlist line;
empty segments are kept, `""` splits to `[""]`, exactly as in Python. -/
def split_on_slash : List Char → List (List Char)
  | [] => [[]]
  | c :: cs =>
    match split_on_slash cs with
    | [] => [[]]
    | seg :: segs =>
      if c = '/' then [] :: seg :: segs else (c :: seg) :: segs

/-- `util.list_all_files` skips files whose name, or any containing
directory name, starts with a dot. -/
def is_hidden_path (p : Path) : Bool :=
  (split_on_slash p.data).any (fun seg =>
    match seg with
    | [] => false
    | c :: _ => c = '.')

/-- `util.list_all_files`: relative paths of all non-hidden files under the
source root (the source tree is given as an association list from relative
path to content). -/
def list_all_files (srcT : List (Path × Bytes)) : List Path :=
  (srcT.map Prod.fst).filter (fun p => !(is_hidden_path p))

/-! ## `hashdb.py` -/

/-- In-memory contents of `HashDb._database`:
`in_filename ↦ (out_filename, hash)`. -/
abbrev Database := List (Path × String × String)

/-- `HashDb` object: `database = none` models `_database is None`
(outside the context manager). -/
structure HashDb where
  database : Option Database

/-- The dictionary access in `HashDb.get_item`:
`self._database.get(str(in_filename), (None, None))`. -/
def get_item (db : Database) (in_filename : Path) : Option String × Option String :=
  match lookupA db in_filename with
  | some (o, h) => (some o, some h)
  | none => (none, none)

/-- `HashDb.get_items`, guarded by `ensure_context_manager`. -/
def HashDb.get_items (h : HashDb) :
    Except String (List (Path × String × String)) :=
  match h.database with
  | none => .error "Method must be used within context manager"
  | some db => .ok (db.map (fun kv => (kv.1, kv.2.1, kv.2.2)))

/-- `HashDb.get_item`, guarded by `ensure_context_manager`. -/
def HashDb.get_item (h : HashDb) (in_filename : Path) :
    Except String (Option String × Option String) :=
  match h.database with
  | none => .error "Method must be used within context manager"
  | some db => .ok (SyncMusic.get_item db in_filename)

/-- `HashDb.add_item`, guarded by `ensure_context_manager`. -/
def HashDb.add_item (h : HashDb) (in_filename out_filename file_hash : String) :
    Except String HashDb :=
  match h.database with
  | none => .error "Method must be used within context manager"
  | some db => .ok ⟨some (setA db in_filename (out_filename, file_hash))⟩

/-- `HashDb.delete_item`, guarded by `ensure_context_manager`; `del` on a
missing key raises `KeyError`. -/
def HashDb.delete_item (h : HashDb) (in_filename : Path) :
    Except String HashDb :=
  match h.database with
  | none => .error "Method must be used within context manager"
  | some db =>
    if (lookupA db in_filename).isSome then .ok ⟨some (removeA db in_filename)⟩
    else .error "KeyError"

/-- `HashDb.calculate_hash`: reads only the first 4096 bytes of the file
and digests them (`hashlib.md5` abstracted as `md5`). -/
def calculate_hash (md5 : Bytes → String) (content : Bytes) : String :=
  md5 (content.take 4096)

/-! ## Actions (`actions.py` / `transcode.py` / `metadata.py` interface)

Actions are consumed by the engine through `name`, `get_out_filename` and
`execute` only.  `get_out_filename` may return `None` (the `Skip` action).
`execute` writes the destination file; its effect is modelled as a function
of the source content and the current destination content, with `none`
modelling an `IOError`. -/

structure Action where
  name : String
  get_out_filename : Path → Option Path
  transform : Bytes → Option Bytes → Option Bytes

/-- `FileTask(index, total, in_filename, actions)` namedtuple. -/
structure FileTask where
  index : Nat
  total : Nat
  in_filename : Path
  actions : List Action

/-- The arguments and OS oracles of a run.

* `force`, `batch`: command line flags.
* `md5`: abstracts `hashlib.md5(...).hexdigest()`.
* `unlinkFails p`: whether `(audio_dest / p).unlink()` raises `OSError`.
* `confirm p`: the answer `util.query_yes_no` would give for source `p`.
* `storeWriteFails`: whether writing the database file in
  `HashDb.__exit__` raises `IOError`. -/
structure Args where
  force : Bool
  batch : Bool
  storeWriteFails : Bool
  unlinkFails : Path → Bool
  confirm : Path → Bool
  md5 : Bytes → String

/-- The mutable state visible to one run: the source tree, the destination
tree and the open hash database. -/
structure SyncState where
  srcT : List (Path × Bytes)
  destT : List (Path × Bytes)
  db : Database

/-! ## `SyncMusic._process_file` -/

/-- The skip/reprocess decision of `SyncMusic._process_file`:
`self._args.force or hash_database is None or hash_database != hash_current
or not out_filepath.exists()`. -/
def needs_processing (args : Args) (db : Database) (destT : List (Path × Bytes))
    (in_filename out_filename : Path) (hash_current : String) : Bool :=
  let hash_database := (get_item db in_filename).2
  args.force || hash_database.isNone || !(hash_database = some hash_current)
    || (lookupA destT out_filename).isNone

/-- The `for action in file_task.actions: action.execute(...)` loop, under
the `try/except IOError` of `_process_file`.  Returns the destination tree
after the executed actions (writes before a failing action are kept), a
flag saying whether all actions succeeded, and the number of `execute`
calls made (ghost data used to state properties about Action
invocations). -/
def execute_actions : List Action → Bytes → List (Path × Bytes) → Path →
    List (Path × Bytes) × Bool × Nat
  | [], _, destT, _ => (destT, true, 0)
  | a :: rest, srcContent, destT, out =>
    match a.transform srcContent (lookupA destT out) with
    | none => (destT, false, 1)
    | some d =>
      let r := execute_actions rest srcContent (setA destT out d) out
      (r.1, r.2.1, r.2.2 + 1)

/-- Outcome of `_process_file` on one task: the destination tree after the
call, the returned value (`None` or the
`(in_filename, out_filename, hash_current)` triple), plus ghost data:
the number of `execute` calls and whether the
"Skipping up to date file" message was logged. -/
structure ProcOut where
  destT : List (Path × Bytes)
  result : Option (Path × Path × String)
  invocations : Nat
  uptodate : Bool

/-- `SyncMusic._process_file`.  A `.error` models an exception escaping the
function (`TypeError` from `re.sub` on `None`, `FileNotFoundError` from
opening a vanished source file); the `IOError` raised by an action is
caught inside and yields `.ok` with `result = none`. -/
def process_file (args : Args) (st : SyncState) (task : FileTask) :
    Except String ProcOut :=
  match task.actions with
  | [] => .ok ⟨st.destT, none, 0, false⟩
  | a0 :: _ =>
    match a0.get_out_filename task.in_filename with
    | none => .error "TypeError"
    | some raw =>
      let out_filename := correct_path_fat32 raw
      match lookupA st.srcT task.in_filename with
      | none => .error "FileNotFoundError"
      | some srcContent =>
        let hash_current := calculate_hash args.md5 srcContent
        if needs_processing args st.db st.destT task.in_filename out_filename
            hash_current then
          let r := execute_actions task.actions srcContent st.destT out_filename
          if r.2.1 then
            .ok ⟨r.1, some (task.in_filename, out_filename, hash_current),
                 r.2.2, false⟩
          else
            .ok ⟨r.1, none, r.2.2, false⟩
        else
          .ok ⟨st.destT, none, 0, true⟩

/-! ## `SyncMusic._clean_up_missing_files` -/

/-- One iteration of the reconciliation loop, for one snapshot item
`(in_filename, out_filename, hash)`. -/
def cleanup_step (args : Args) (st : SyncState) :
    Path × String × String → SyncState
  | (in_filename, out_filename, _) =>
    if (lookupA st.srcT in_filename).isNone then
      let destT1 :=
        if (lookupA st.destT out_filename).isSome then
          if args.batch || args.confirm in_filename then
            if args.unlinkFails out_filename then st.destT
            else removeA st.destT out_filename
          else st.destT
        else st.destT
      if (lookupA destT1 out_filename).isNone then
        { st with destT := destT1, db := removeA st.db in_filename }
      else
        { st with destT := destT1 }
    else st

/-- The loop of `_clean_up_missing_files` over the snapshot
`list(self._hashdb.get_items())`. -/
def cleanup_items (args : Args) :
    List (Path × String × String) → SyncState → SyncState
  | [], st => st
  | it :: rest, st => cleanup_items args rest (cleanup_step args st it)

/-- The `(k, *v)` triples produced by `HashDb.get_items`. -/
def db_items (db : Database) : List (Path × String × String) :=
  db.map (fun kv => (kv.1, kv.2.1, kv.2.2))

/-- `SyncMusic._clean_up_missing_files`.  The trailing
`util.delete_empty_directories` call prunes directories only; it does not
change the file map modelled here (it is modelled separately on a
directory tree, see `delete_empty_directories`). -/
def clean_up_missing_files (args : Args) (st : SyncState) : SyncState :=
  cleanup_items args (db_items st.db) st

/-! ## `SyncMusic.sync_audio` -/

/-- `enumerate(files, 1)` turned into `FileTask`s with
`self._get_file_actions`. -/
def make_file_tasks (actionsOf : Path → List Action) (total : Nat) :
    Nat → List Path → List FileTask
  | _, [] => []
  | i, f :: rest =>
    ⟨i, total, f, actionsOf f⟩ :: make_file_tasks actionsOf total (i + 1) rest

/-- The sequential processing loop of `sync_audio` (`args.jobs == 1`).
An exception escaping `_process_file` is caught by the bare `except`
around the loop: the remaining tasks are not processed, the results
collected so far are kept.  Also returns the total number of `execute`
calls (ghost). -/
def run_tasks (args : Args) :
    SyncState → List FileTask →
    SyncState × List (Option (Path × Path × String)) × Nat
  | st, [] => (st, [], 0)
  | st, t :: rest =>
    match process_file args st t with
    | .error _ => (st, [], 0)
    | .ok po =>
      let r := run_tasks args { st with destT := po.destT } rest
      (r.1, po.result :: r.2.1, po.invocations + r.2.2)

/-- The commit loop
`for file_hash in filter(None, file_hashes): self._hashdb.add_item(*file_hash)`. -/
def commit (db : Database) :
    List (Option (Path × Path × String)) → Database
  | [] => db
  | none :: rest => commit db rest
  | some (i, o, h) :: rest => commit (setA db i (o, h)) rest

/-- Result of one `sync_audio` run.

* `persisted`: contents of the on-disk database file after the run
  (`none` = the file does not exist).
* `destT`: the destination tree after the run.
* `failed`: whether `FileNotFoundError("No input files")` propagated.
* `invocations`: ghost count of `Action.execute` calls during the run. -/
structure RunResult where
  persisted : Option Database
  destT : List (Path × Bytes)
  failed : Bool
  invocations : Nat

/-- `SyncMusic.sync_audio`.  The `with self._hashdb:` block loads the
database on entry and stores it on exit — also when the
`FileNotFoundError` propagates, because `HashDb.__exit__` writes the file
unconditionally (unless that write itself raises `IOError`, which is
logged and swallowed). -/
def sync_audio (args : Args) (actionsOf : Path → List Action)
    (persistedFile : Option Database) (srcT destT : List (Path × Bytes)) :
    RunResult :=
  let db0 := persistedFile.getD []
  let files := list_all_files srcT
  if files.isEmpty then
    { persisted := if args.storeWriteFails then persistedFile else some db0,
      destT := destT, failed := true, invocations := 0 }
  else
    let st1 := clean_up_missing_files args ⟨srcT, destT, db0⟩
    let tasks := make_file_tasks actionsOf files.length 1 files
    let r := run_tasks args st1 tasks
    let dbF := commit r.1.db r.2.1
    { persisted := if args.storeWriteFails then persistedFile else some dbF,
      destT := r.1.destT, failed := false, invocations := r.2.2 }

/-! ## `SyncMusic._sync_playlist` -/

/-- `"/".join` of a list of segments: the inverse of `split_on_slash`,
used to name the suffix that the stripping loop currently looks up. -/
def join_segments : List (List Char) → List Char
  | [] => []
  | [seg] => seg
  | seg :: segs => seg ++ '/' :: join_segments segs

/-- The `while True` lookup loop of `_sync_playlist`, recursing on the
forward-slash segments of the line: `in_filename.split("/", 1)[1]` strips
the first segment, and raises `IndexError` (modelled by `none`) when the
name left over has no forward slash.  An empty stored `out_filename` is
falsy in Python and is skipped over exactly like a missing entry. -/
def lookup_with_stripping (db : Database) : List (List Char) → Option String
  | [] => none
  | seg :: rest =>
    match (get_item db ⟨join_segments (seg :: rest)⟩).1 with
    | some o =>
      if o = "" then
        match rest with
        | [] => none
        | _ :: _ => lookup_with_stripping db rest
      else some o
    | none =>
      match rest with
      | [] => none
      | _ :: _ => lookup_with_stripping db rest

/-- Python `out_filename.replace("/", "\\")` (a single-character pattern,
hence a character-wise substitution). -/
def replace_slash_backslash (s : String) : String :=
  ⟨s.data.map (fun c => if c = '/' then '\\' else c)⟩

/-- Processing of one playlist line by `_sync_playlist`: comment lines
(`line.startswith("#EXT")`) pass through; other lines are resolved through
the database with prefix stripping; a resolved line is rewritten with
backslash separators; an unresolved line is dropped (`continue` after the
warning).  Every emitted line ends in CR+LF. -/
def sync_playlist_line (db : Database) (line : String) : Option String :=
  if ("#EXT".data).isPrefixOf line.data then some (line ++ "\r\n")
  else
    match lookup_with_stripping db (split_on_slash line.data) with
    | some o => some (replace_slash_backslash o ++ "\r\n")
    | none => none

/-- The output text written for a playlist given as a list of input
lines. -/
def sync_playlist (db : Database) (lines : List String) : String :=
  String.join (lines.filterMap (sync_playlist_line db))

/-! ## `util.delete_empty_directories`

Modelled on a rose tree of the destination directory structure (the flat
file-map used by the engine above does not represent directories). -/

mutual
/-- A node of the destination tree: a plain file or a directory with a
list of children. -/
inductive FSNode where
  | file : String → FSNode
  | dir : String → FSList → FSNode

/-- Children lists, as a mutual inductive to get a usable induction
principle. -/
inductive FSList where
  | nil : FSList
  | cons : FSNode → FSList → FSList
end

mutual
/-- `util.delete_empty_directories(path)`: returns the node after the call
(`none` = the node was removed) and the function's boolean result.
A non-directory returns `False`; a directory first recurses into all
children (the list comprehension evaluates every recursive call), then is
removed iff every child was removed (`os.rmdir` succeeds on the
now-empty directory). -/
def delete_empty_directories : FSNode → Option FSNode × Bool
  | .file n => (some (.file n), false)
  | .dir n children =>
    let r := delete_children children
    if r.2 then (none, true) else (some (.dir n r.1), false)

/-- The recursion of `delete_empty_directories` over a children list:
returns the remaining children and whether all of them were removed
(`all([...])`, which is `True` for an empty directory). -/
def delete_children : FSList → FSList × Bool
  | .nil => (.nil, true)
  | .cons t ts =>
    let r := delete_empty_directories t
    let rs := delete_children ts
    (match r.1 with
     | none => rs.1
     | some t' => .cons t' rs.1,
     r.2 && rs.2)
end

mutual
/-- A node contains no file anywhere beneath it (it is a directory all of
whose transitive entries are directories). -/
def no_files_node : FSNode → Bool
  | .file _ => false
  | .dir _ children => no_files_list children

/-- All nodes of the list satisfy `no_files_node`. -/
def no_files_list : FSList → Bool
  | .nil => true
  | .cons t ts => no_files_node t && no_files_list ts
end

/-- Whether a node is a directory. -/
def FSNode.isDir : FSNode → Bool
  | .file _ => false
  | .dir _ _ => true

/-! ## Concrete fixtures used to exercise the model -/

/-- The store of the playlist example: `Artist/Song.flac → Artist/Song.mp3`. -/
def demo_db : Database := [("Artist/Song.flac", ("Artist/Song.mp3", "h"))]

/-- A plain argument set: batch mode, no force, no failing OS calls, and a
digest that prints the bytes. -/
def demo_args : Args :=
  { force := false, batch := true, storeWriteFails := false,
    unlinkFails := fun _ => false, confirm := fun _ => true,
    md5 := fun b => toString b }

/-- The `Copy` action of `actions.py`: `get_out_filename` is the identity,
`execute` copies the source content to the destination. -/
def copy_action : Action :=
  { name := "Copying", get_out_filename := fun p => some p,
    transform := fun srcContent _ => some srcContent }

/-- A state with one orphan record: the source `gone.mp3` has vanished but
its destination file and its record are still present. -/
def orphan_state : SyncState :=
  ⟨[], [("gone.mp3", [0])], [("gone.mp3", ("gone.mp3", "h"))]⟩

end SyncMusic

namespace SyncMusic

/-! ## Helper lemmas -/

/-- One-step unfolding of the stripping loop. -/
theorem lookup_with_stripping_cons (db : Database) (s : List Char)
    (segs : List (List Char)) :
    lookup_with_stripping db (s :: segs) =
      match (get_item db ⟨join_segments (s :: segs)⟩).1 with
      | some o =>
        if o = "" then
          match segs with
          | [] => none
          | _ :: _ => lookup_with_stripping db segs
        else some o
      | none =>
        match segs with
        | [] => none
        | _ :: _ => lookup_with_stripping db segs := rfl

theorem fat32Sub_eq_map (l : List Char) :
    fat32Sub l = l.map (fun c => if c ∈ fat32IllegalChars then '_' else c) := by
  induction l with
  | nil => rfl
  | cons c cs ih => simp [fat32Sub, ih]

mutual
theorem delete_empty_directories_snd (t : FSNode) :
    (delete_empty_directories t).2 = no_files_node t :=
  match t with
  | .file _ => rfl
  | .dir n cs => by
    simp only [delete_empty_directories, no_files_node]
    rw [← delete_children_snd cs]
    cases (delete_children cs).2 <;> simp

theorem delete_children_snd (ts : FSList) :
    (delete_children ts).2 = no_files_list ts :=
  match ts with
  | .nil => rfl
  | .cons t ts' => by
    simp only [delete_children, no_files_list]
    rw [← delete_empty_directories_snd t, ← delete_children_snd ts']
end

theorem delete_empty_directories_removed (t : FSNode) :
    (delete_empty_directories t).1 = none ↔ (delete_empty_directories t).2 = true := by
  cases t with
  | file n => simp [delete_empty_directories]
  | dir n cs =>
    simp only [delete_empty_directories]
    cases (delete_children cs).2 <;> simp

/-- `_process_file` on a task with a non-empty action list, an action that
yields a destination name, and a readable source file. -/
theorem process_file_eq (args : Args) (st : SyncState) (i tot : Nat)
    (f : Path) (a0 : Action) (rest : List Action) (raw : Path) (c : Bytes)
    (hraw : a0.get_out_filename f = some raw)
    (hsrc : lookupA st.srcT f = some c) :
    process_file args st ⟨i, tot, f, a0 :: rest⟩ =
      if needs_processing args st.db st.destT f (correct_path_fat32 raw)
          (calculate_hash args.md5 c) then
        let r := execute_actions (a0 :: rest) c st.destT (correct_path_fat32 raw)
        if r.2.1 then
          .ok ⟨r.1, some (f, correct_path_fat32 raw, calculate_hash args.md5 c),
               r.2.2, false⟩
        else .ok ⟨r.1, none, r.2.2, false⟩
      else .ok ⟨st.destT, none, 0, true⟩ := by
  simp only [process_file, hraw, hsrc]

/-- Executing a non-empty action list makes at least one `execute` call. -/
theorem execute_actions_invocations_pos (a : Action) (as : List Action)
    (c : Bytes) (d : List (Path × Bytes)) (out : Path) :
    0 < (execute_actions (a :: as) c d out).2.2 := by
  cases h : a.transform c (lookupA d out) <;> simp [execute_actions, h]

/-- If all actions of a non-empty list succeed, the destination file has
been written. -/
theorem execute_actions_ok_writes (c : Bytes) (out : Path) :
    ∀ (a : Action) (as : List Action) (d : List (Path × Bytes)),
    (execute_actions (a :: as) c d out).2.1 = true →
    lookupA (execute_actions (a :: as) c d out).1 out ≠ none
  | a, as, d => by
    intro hok
    cases h : a.transform c (lookupA d out) with
    | none => simp [execute_actions, h] at hok
    | some v =>
      cases as with
      | nil =>
        simp [execute_actions, h, lookupA_setA_self]
      | cons a1 as1 =>
        have := execute_actions_ok_writes c out a1 as1 (setA d out v)
        simp only [execute_actions, h] at hok ⊢
        exact this hok

/-- `execute` calls only write files; existing files stay present. -/
theorem execute_actions_preserves_presence (c : Bytes) (out p : Path) :
    ∀ (as : List Action) (d : List (Path × Bytes)),
    lookupA d p ≠ none → lookupA (execute_actions as c d out).1 p ≠ none
  | [], d => fun h => h
  | a :: as, d => by
    intro hp
    cases h : a.transform c (lookupA d out) with
    | none => simpa [execute_actions, h] using hp
    | some v =>
      have hset : lookupA (setA d out v) p ≠ none := by
        by_cases hpo : out = p
        · subst hpo; simp [lookupA_setA_self]
        · rw [lookupA_setA_ne _ _ _ _ hpo]; exact hp
      have := execute_actions_preserves_presence c out p as (setA d out v) hset
      simpa [execute_actions, h] using this

/-- `cleanup_step` never touches the source tree. -/
theorem cleanup_step_srcT (args : Args) (st : SyncState)
    (it : Path × String × String) :
    (cleanup_step args st it).srcT = st.srcT := by
  obtain ⟨ik, io, ihh⟩ := it
  simp only [cleanup_step]
  repeat' split
  all_goals rfl

/-- The database after `cleanup_step` is either unchanged or has the
item's key removed. -/
theorem cleanup_step_db_cases (args : Args) (st : SyncState)
    (it : Path × String × String) :
    (cleanup_step args st it).db = st.db
    ∨ (cleanup_step args st it).db = removeA st.db it.1 := by
  obtain ⟨ik, io, ihh⟩ := it
  simp only [cleanup_step]
  repeat' split
  all_goals first | exact Or.inl rfl | exact Or.inr rfl

/-- The destination tree after `cleanup_step` is either unchanged or has
the item's destination removed. -/
theorem cleanup_step_destT_cases (args : Args) (st : SyncState)
    (it : Path × String × String) :
    (cleanup_step args st it).destT = st.destT
    ∨ (cleanup_step args st it).destT = removeA st.destT it.2.1 := by
  obtain ⟨ik, io, ihh⟩ := it
  simp only [cleanup_step]
  repeat' split
  all_goals first | exact Or.inl rfl | exact Or.inr rfl

theorem cleanup_items_srcT (args : Args) :
    ∀ (L : List (Path × String × String)) (st : SyncState),
    (cleanup_items args L st).srcT = st.srcT
  | [], _ => rfl
  | it :: rest, st => by
    rw [cleanup_items, cleanup_items_srcT args rest, cleanup_step_srcT]

/-- Folding `cleanup_step` over items whose key and destination differ
from `k` and `o` preserves the lookups at `k` and `o`. -/
theorem cleanup_items_other (args : Args) (k o : Path) :
    ∀ (L : List (Path × String × String)) (st : SyncState),
    (∀ it ∈ L, it.1 ≠ k ∧ it.2.1 ≠ o) →
    lookupA (cleanup_items args L st).db k = lookupA st.db k
    ∧ lookupA (cleanup_items args L st).destT o = lookupA st.destT o
  | [], st => fun _ => ⟨rfl, rfl⟩
  | it :: rest, st => by
    intro hother
    have hit := hother it (List.mem_cons_self _ _)
    have hrest := cleanup_items_other args k o rest (cleanup_step args st it)
      (fun x hx => hother x (List.mem_cons_of_mem _ hx))
    rw [cleanup_items]
    refine ⟨?_, ?_⟩
    · rw [hrest.1]
      rcases cleanup_step_db_cases args st it with hdb | hdb <;> rw [hdb]
      exact lookupA_removeA_ne _ _ _ hit.1
    · rw [hrest.2]
      rcases cleanup_step_destT_cases args st it with hd | hd <;> rw [hd]
      exact lookupA_removeA_ne _ _ _ hit.2

theorem cleanup_items_append (args : Args) :
    ∀ (L1 L2 : List (Path × String × String)) (st : SyncState),
    cleanup_items args (L1 ++ L2) st =
      cleanup_items args L2 (cleanup_items args L1 st)
  | [], _, _ => rfl
  | it :: rest, L2, st => by
    rw [List.cons_append, cleanup_items, cleanup_items,
      cleanup_items_append args rest L2]

/-- `cleanup_step` on an orphan record whose destination exists, in batch
mode with a successful `unlink`: the destination file and the record are
both removed. -/
theorem cleanup_step_orphan_unlink_ok (args : Args) (st : SyncState)
    (k o h' : String) (hbatch : args.batch = true)
    (hmiss : lookupA st.srcT k = none)
    (hdest : (lookupA st.destT o).isSome)
    (hunl : args.unlinkFails o = false) :
    cleanup_step args st (k, o, h') =
      { st with destT := removeA st.destT o, db := removeA st.db k } := by
  simp only [cleanup_step, hmiss, hdest, hbatch, hunl, Option.isNone_none,
    Bool.true_or, if_true, Bool.false_eq_true, if_false,
    lookupA_removeA_self, Option.isNone_none]

/-- `cleanup_step` on an orphan record whose destination exists, in batch
mode with a failing `unlink` (`OSError`): the state is unchanged — the
destination file stays and the record is retained for retry. -/
theorem cleanup_step_orphan_unlink_fails (args : Args) (st : SyncState)
    (k o h' : String) (hbatch : args.batch = true)
    (hmiss : lookupA st.srcT k = none)
    (hdest : (lookupA st.destT o).isSome)
    (hunl : args.unlinkFails o = true) :
    cleanup_step args st (k, o, h') = st := by
  have hnotnone : (lookupA st.destT o).isNone = false := by
    rcases Option.isSome_iff_exists.mp hdest with ⟨v, hv⟩
    simp [hv]
  simp only [cleanup_step, hmiss, hdest, hbatch, hunl, Option.isNone_none,
    Bool.true_or, if_true, hnotnone, Bool.false_eq_true, if_false]

/-- `cleanup_step` on an orphan record whose destination is already
absent: only the record is removed. -/
theorem cleanup_step_orphan_dest_absent (args : Args) (st : SyncState)
    (k o h' : String)
    (hmiss : lookupA st.srcT k = none)
    (hdest : lookupA st.destT o = none) :
    cleanup_step args st (k, o, h') =
      { st with db := removeA st.db k } := by
  simp only [cleanup_step, hmiss, hdest, Option.isNone_none, Option.isSome_none,
    Bool.false_eq_true, if_false, if_true]

/-- The keys of the `get_items` triples are the database keys. -/
theorem db_items_keys (db : Database) :
    (db_items db).map (fun x => x.1) = db.map Prod.fst := by
  simp only [db_items, List.map_map]
  rfl

/-- Membership in the `get_items` triples. -/
theorem mem_db_items {db : Database} {k o h' : String} :
    (k, o, h') ∈ db_items db ↔ (k, (o, h')) ∈ db := by
  constructor
  · intro hm
    rcases List.mem_map.mp hm with ⟨⟨k1, o1, h1⟩, hmem, heq⟩
    simp only [Prod.mk.injEq] at heq
    obtain ⟨rfl, rfl, rfl⟩ := heq
    exact hmem
  · intro hm
    exact List.mem_map.mpr ⟨(k, (o, h')), hm, rfl⟩

/-- On a database with distinct keys, a member is found by lookup. -/
theorem lookupA_of_mem_nodup {α : Type} {l : List (Path × α)} {k : Path}
    {v : α} (hmem : (k, v) ∈ l) (hnd : (l.map Prod.fst).Nodup) :
    lookupA l k = some v := by
  induction l with
  | nil => cases hmem
  | cons kv rest ih =>
    obtain ⟨k1, v1⟩ := kv
    simp only [List.map_cons, List.nodup_cons] at hnd
    rcases List.mem_cons.mp hmem with heq | hmem2
    · simp only [Prod.mk.injEq] at heq
      obtain ⟨rfl, rfl⟩ := heq
      simp [lookupA]
    · have hk : k1 ≠ k := by
        intro hk1
        subst hk1
        exact hnd.1 (List.mem_map.mpr ⟨(k1, v), hmem2, rfl⟩)
      simp [lookupA, hk, ih hmem2 hnd.2]

theorem lookupA_removeA_none {α : Type} {l : List (Path × α)} {k : Path}
    (p : Path) (h : lookupA l k = none) : lookupA (removeA l p) k = none := by
  by_cases hp : p = k
  · subst hp; exact lookupA_removeA_self _ _
  · rw [lookupA_removeA_ne _ _ _ hp]; exact h

theorem lookupA_of_removeA {α : Type} {l : List (Path × α)} {k p : Path}
    (h : lookupA (removeA l p) k ≠ none) : lookupA l k ≠ none := by
  intro hnone
  exact h (lookupA_removeA_none p hnone)

/-- Reconciliation never creates records. -/
theorem cleanup_items_db_absent (args : Args) (k : Path) :
    ∀ (L : List (Path × String × String)) (st : SyncState),
    lookupA st.db k = none → lookupA (cleanup_items args L st).db k = none
  | [], _ => fun h => h
  | it :: rest, st => by
    intro h
    rw [cleanup_items]
    refine cleanup_items_db_absent args k rest _ ?_
    rcases cleanup_step_db_cases args st it with hdb | hdb <;> rw [hdb]
    · exact h
    · exact lookupA_removeA_none _ h

/-- Records surviving reconciliation were present at its start. -/
theorem cleanup_items_db_sub (args : Args) (k : Path) :
    ∀ (L : List (Path × String × String)) (st : SyncState),
    lookupA (cleanup_items args L st).db k ≠ none → lookupA st.db k ≠ none
  | [], _ => fun h => h
  | it :: rest, st => by
    intro h
    have h2 := cleanup_items_db_sub args k rest _ h
    rcases cleanup_step_db_cases args st it with hdb | hdb <;> rw [hdb] at h2
    · exact h2
    · exact lookupA_of_removeA h2

/-- In batch mode with no failing unlink, `cleanup_step` on an item whose
source is missing removes the item's key from the database. -/
theorem cleanup_step_removes_key (args : Args) (st : SyncState)
    (k o h' : String) (hbatch : args.batch = true)
    (hunl : ∀ p, args.unlinkFails p = false)
    (hmiss : lookupA st.srcT k = none) :
    lookupA (cleanup_step args st (k, o, h')).db k = none := by
  cases hdest : lookupA st.destT o with
  | none =>
    rw [cleanup_step_orphan_dest_absent args st k o h' hmiss hdest]
    exact lookupA_removeA_self _ _
  | some v =>
    rw [cleanup_step_orphan_unlink_ok args st k o h' hbatch hmiss
      (by rw [hdest]; rfl) (hunl o)]
    exact lookupA_removeA_self _ _

/-- In batch mode with no failing unlink, every snapshot record whose
source is missing is gone from the database after reconciliation. -/
theorem cleanup_items_removes_missing (args : Args) (k o h' : String)
    (hbatch : args.batch = true) (hunl : ∀ p, args.unlinkFails p = false) :
    ∀ (L : List (Path × String × String)) (st : SyncState),
    (k, o, h') ∈ L → lookupA st.srcT k = none →
    lookupA (cleanup_items args L st).db k = none
  | [], _ => fun hmem _ => absurd hmem (List.not_mem_nil _)
  | it :: rest, st => by
    intro hmem hmiss
    rw [cleanup_items]
    rcases List.mem_cons.mp hmem with heq | hmem2
    · subst heq
      exact cleanup_items_db_absent args k rest _
        (cleanup_step_removes_key args st k o h' hbatch hunl hmiss)
    · exact cleanup_items_removes_missing args k o h' hbatch hunl rest _ hmem2
        (by rw [cleanup_step_srcT]; exact hmiss)

/-- After a batch-mode reconciliation with no failing unlink, every record
in the database has an existing source. -/
theorem clean_up_survivors_have_sources (args : Args) (st : SyncState)
    (hbatch : args.batch = true) (hunl : ∀ p, args.unlinkFails p = false)
    (k : Path) (hsurv : lookupA (clean_up_missing_files args st).db k ≠ none) :
    lookupA st.srcT k ≠ none := by
  intro hmiss
  have hinit : lookupA st.db k ≠ none :=
    cleanup_items_db_sub args k (db_items st.db) st hsurv
  rcases Option.ne_none_iff_exists.mp hinit with ⟨⟨o, h'⟩, hv⟩
  have hmem : (k, o, h') ∈ db_items st.db :=
    mem_db_items.mpr (lookupA_mem hv.symm)
  exact hsurv (cleanup_items_removes_missing args k o h' hbatch hunl
    (db_items st.db) st hmem hmiss)

/-- `cleanup_step` on an item whose source still exists does nothing. -/
theorem cleanup_step_src_present (args : Args) (st : SyncState)
    (it : Path × String × String)
    (hsrc : lookupA st.srcT it.1 ≠ none) :
    cleanup_step args st it = st := by
  obtain ⟨ik, io, ihh⟩ := it
  have hnone : (lookupA st.srcT ik).isNone = false := by
    rcases Option.ne_none_iff_exists.mp hsrc with ⟨v, hv⟩
    rw [← hv]
    rfl
  simp only [cleanup_step, hnone, Bool.false_eq_true, if_false]

/-- Reconciliation over a snapshot of records with existing sources is the
identity. -/
theorem cleanup_items_id (args : Args) :
    ∀ (L : List (Path × String × String)) (st : SyncState),
    (∀ it ∈ L, lookupA st.srcT it.1 ≠ none) → cleanup_items args L st = st
  | [], _ => fun _ => rfl
  | it :: rest, st => by
    intro hsrc
    rw [cleanup_items, cleanup_step_src_present args st it
      (hsrc it (List.mem_cons_self _ _))]
    exact cleanup_items_id args rest st
      (fun x hx => hsrc x (List.mem_cons_of_mem _ hx))

/-- Committing results whose keys all differ from `k` preserves the lookup
at `k`. -/
theorem commit_preserve (k : Path) :
    ∀ (rs : List (Option (Path × Path × String))) (db : Database),
    (∀ k' o' h', some (k', o', h') ∈ rs → k' ≠ k) →
    lookupA (commit db rs) k = lookupA db k
  | [], _ => fun _ => rfl
  | none :: rest, db => fun hk =>
    commit_preserve k rest db (fun k' o' h' hm => hk k' o' h' (by simp [hm]))
  | some (i, o, h') :: rest, db => by
    intro hk
    have hi : i ≠ k := hk i o h' (by simp)
    rw [commit, commit_preserve k rest _
      (fun k' o' h'' hm => hk k' o' h'' (by simp [hm]))]
    exact lookupA_setA_ne _ _ _ _ hi

/-- A key found after the commit loop was either already present or was
committed from some returned triple. -/
theorem commit_origin (k : Path) :
    ∀ (rs : List (Option (Path × Path × String))) (db : Database),
    lookupA (commit db rs) k ≠ none →
    lookupA db k ≠ none ∨ ∃ o h', some (k, o, h') ∈ rs
  | [], _ => fun h => Or.inl h
  | none :: rest, db => by
    intro h
    rcases commit_origin k rest db h with h1 | ⟨o, h', hm⟩
    · exact Or.inl h1
    · exact Or.inr ⟨o, h', by simp [hm]⟩
  | some (i, o, h') :: rest, db => by
    intro h
    rcases commit_origin k rest _ h with h1 | ⟨o2, h2, hm⟩
    · by_cases hik : i = k
      · subst hik
        exact Or.inr ⟨o, h', by simp⟩
      · rw [lookupA_setA_ne _ _ _ _ hik] at h1
        exact Or.inl h1
    · exact Or.inr ⟨o2, h2, by simp [hm]⟩

/-- Committing a list of `None` results does nothing. -/
theorem commit_nones (db : Database) :
    ∀ (ts : List FileTask), commit db (ts.map (fun _ => none)) = db
  | [] => rfl
  | _ :: rest => commit_nones db rest

/-- The tasks enumerate exactly the given files, in order. -/
theorem make_file_tasks_map_in (actionsOf : Path → List Action) (total : Nat) :
    ∀ (i : Nat) (fs : List Path),
    (make_file_tasks actionsOf total i fs).map (fun t => t.in_filename) = fs
  | _, [] => rfl
  | i, f :: rest => by
    rw [make_file_tasks, List.map_cons, make_file_tasks_map_in actionsOf total]

theorem make_file_tasks_mem (actionsOf : Path → List Action) (total : Nat) :
    ∀ (i : Nat) (fs : List Path) (t : FileTask),
    t ∈ make_file_tasks actionsOf total i fs →
    t.in_filename ∈ fs ∧ t.actions = actionsOf t.in_filename
  | _, [], t => fun hm => absurd hm (List.not_mem_nil _)
  | i, f :: rest, t => by
    intro hm
    rcases List.mem_cons.mp hm with heq | hm2
    · subst heq
      exact ⟨List.mem_cons_self _ _, rfl⟩
    · have := make_file_tasks_mem actionsOf total (i + 1) rest t hm2
      exact ⟨List.mem_cons_of_mem _ this.1, this.2⟩

theorem make_file_tasks_mem_of (actionsOf : Path → List Action) (total : Nat) :
    ∀ (i : Nat) (fs : List Path) (f : Path), f ∈ fs →
    ∃ j, (⟨j, total, f, actionsOf f⟩ : FileTask) ∈
      make_file_tasks actionsOf total i fs
  | _, [], f => fun hm => absurd hm (List.not_mem_nil _)
  | i, g :: rest, f => by
    intro hm
    rcases List.mem_cons.mp hm with heq | hm2
    · subst heq
      exact ⟨i, List.mem_cons_self _ _⟩
    · rcases make_file_tasks_mem_of actionsOf total (i + 1) rest f hm2 with
        ⟨j, hj⟩
      exact ⟨j, List.mem_cons_of_mem _ hj⟩

theorem make_file_tasks_pairwise (actionsOf : Path → List Action) (total : Nat)
    (i : Nat) (fs : List Path) (hnd : fs.Nodup) :
    (make_file_tasks actionsOf total i fs).Pairwise
      (fun a b => a.in_filename ≠ b.in_filename) := by
  have h := hnd
  rw [← make_file_tasks_map_in actionsOf total i fs] at h
  exact (List.pairwise_map).mp h

/-- The needs-processing test is `False` exactly when the force flag is
off, the stored fingerprint equals the current one, and the destination
file exists. -/
theorem needs_processing_eq_false (args : Args) (db : Database)
    (destT : List (Path × Bytes)) (f out : Path) (hc : String) :
    needs_processing args db destT f out hc = false ↔
      args.force = false ∧ (get_item db f).2 = some hc
      ∧ lookupA destT out ≠ none := by
  cases h2 : (get_item db f).2 with
  | none => simp [needs_processing, h2]
  | some x =>
    simp only [needs_processing, h2, Bool.or_eq_false_iff]
    constructor
    · rintro ⟨⟨⟨hf, -⟩, hne⟩, hdest⟩
      refine ⟨hf, ?_, ?_⟩
      · have : x = hc := by
          by_contra hx
          simp [hx] at hne
        rw [this]
      · intro hnone
        rw [hnone] at hdest
        simp at hdest
    · rintro ⟨hf, hx, hdest⟩
      have hxc : x = hc := by
        injection hx
      subst hxc
      refine ⟨⟨⟨hf, rfl⟩, by simp⟩, ?_⟩
      rcases Option.ne_none_iff_exists.mp hdest with ⟨v, hv⟩
      rw [← hv]
      rfl

/-- A task that is up to date is skipped without touching anything. -/
theorem process_file_skip (args : Args) (st : SyncState) (i tot : Nat)
    (f : Path) (a0 : Action) (rest : List Action) (raw : Path) (c : Bytes)
    (hraw : a0.get_out_filename f = some raw)
    (hsrc : lookupA st.srcT f = some c)
    (hn : needs_processing args st.db st.destT f (correct_path_fat32 raw)
      (calculate_hash args.md5 c) = false) :
    process_file args st ⟨i, tot, f, a0 :: rest⟩ =
      .ok ⟨st.destT, none, 0, true⟩ := by
  rw [process_file_eq args st i tot f a0 rest raw c hraw hsrc]
  simp [hn]

/-- A task that needs processing and whose actions all succeed returns the
triple. -/
theorem process_file_success (args : Args) (st : SyncState) (i tot : Nat)
    (f : Path) (a0 : Action) (rest : List Action) (raw : Path) (c : Bytes)
    (hraw : a0.get_out_filename f = some raw)
    (hsrc : lookupA st.srcT f = some c)
    (hn : needs_processing args st.db st.destT f (correct_path_fat32 raw)
      (calculate_hash args.md5 c) = true)
    (hok : (execute_actions (a0 :: rest) c st.destT
      (correct_path_fat32 raw)).2.1 = true) :
    process_file args st ⟨i, tot, f, a0 :: rest⟩ =
      .ok ⟨(execute_actions (a0 :: rest) c st.destT (correct_path_fat32 raw)).1,
        some (f, correct_path_fat32 raw, calculate_hash args.md5 c),
        (execute_actions (a0 :: rest) c st.destT (correct_path_fat32 raw)).2.2,
        false⟩ := by
  rw [process_file_eq args st i tot f a0 rest raw c hraw hsrc]
  simp [hn, hok]

/-- If no action of the list can fail, the execution loop succeeds. -/
theorem execute_actions_all_ok (c : Bytes) (out : Path) :
    ∀ (as : List Action) (d : List (Path × Bytes)),
    (∀ a ∈ as, ∀ s dc, (a.transform s dc).isSome) →
    (execute_actions as c d out).2.1 = true
  | [], _ => fun _ => rfl
  | a :: rest, d => by
    intro hall
    have ha := hall a (List.mem_cons_self _ _) c (lookupA d out)
    rcases Option.isSome_iff_exists.mp ha with ⟨v, hv⟩
    have := execute_actions_all_ok c out rest (setA d out v)
      (fun x hx s dc => hall x (List.mem_cons_of_mem _ hx) s dc)
    simp only [execute_actions, hv]
    exact this

/-- Unfolding of the processing loop when `_process_file` returns. -/
theorem run_tasks_cons_ok (args : Args) (st : SyncState) (t : FileTask)
    (rest : List FileTask) (po : ProcOut)
    (h : process_file args st t = .ok po) :
    run_tasks args st (t :: rest) =
      ((run_tasks args { st with destT := po.destT } rest).1,
       po.result :: (run_tasks args { st with destT := po.destT } rest).2.1,
       po.invocations +
         (run_tasks args { st with destT := po.destT } rest).2.2) := by
  simp only [run_tasks, h]

/-- The stored fingerprint component of `get_item`. -/
theorem get_item_snd_some {db : Database} {f : Path} {h' : String} :
    (get_item db f).2 = some h' ↔ ∃ o, lookupA db f = some (o, h') := by
  unfold get_item
  cases hl : lookupA db f with
  | none => simp
  | some v =>
    obtain ⟨o, hh⟩ := v
    constructor
    · intro h
      have h2 : hh = h' := by injection h
      subst h2
      exact ⟨o, rfl⟩
    · rintro ⟨o2, ho2⟩
      have h3 : (o, hh) = (o2, h') := by injection ho2
      have hh2 : hh = h' := congrArg Prod.snd h3
      show some hh = some h'
      rw [hh2]

/-- Main invariant of the sequential processing loop: with pairwise
distinct inputs, readable sources, name-yielding first actions and
never-failing transforms, the loop does not touch the open database or the
source tree, only adds destination files, returns triples keyed by task
inputs, and — for every task with a non-empty action list — leaves the
committed database with the current fingerprint of that task's source and
the destination file present. -/
theorem run_tasks_spec (args : Args) :
    ∀ (ts : List FileTask) (st : SyncState) (dbase : Database),
    ts.Pairwise (fun a b => a.in_filename ≠ b.in_filename) →
    (∀ t ∈ ts, lookupA st.srcT t.in_filename ≠ none) →
    (∀ t ∈ ts, ∀ a0 rest, t.actions = a0 :: rest →
      (a0.get_out_filename t.in_filename).isSome) →
    (∀ t ∈ ts, ∀ a ∈ t.actions, ∀ s d, (a.transform s d).isSome) →
    (∀ t ∈ ts, lookupA dbase t.in_filename = lookupA st.db t.in_filename) →
    (run_tasks args st ts).1.db = st.db
    ∧ (run_tasks args st ts).1.srcT = st.srcT
    ∧ (∀ p, lookupA st.destT p ≠ none →
        lookupA (run_tasks args st ts).1.destT p ≠ none)
    ∧ (∀ k o h', some (k, o, h') ∈ (run_tasks args st ts).2.1 →
        ∃ t ∈ ts, t.in_filename = k)
    ∧ (∀ t ∈ ts, ∀ a0 arest, t.actions = a0 :: arest →
        ∀ raw, a0.get_out_filename t.in_filename = some raw →
        ∀ c, lookupA st.srcT t.in_filename = some c →
        (∃ o', lookupA (commit dbase (run_tasks args st ts).2.1) t.in_filename
            = some (o', calculate_hash args.md5 c))
        ∧ lookupA (run_tasks args st ts).1.destT (correct_path_fat32 raw)
            ≠ none) := by
  intro ts
  induction ts with
  | nil =>
    intro st dbase _ _ _ _ _
    exact ⟨rfl, rfl, fun p h => h, by simp [run_tasks], by simp⟩
  | cons t0 rest ih =>
    intro st dbase hpair hsrcs hout hexec hbase
    obtain ⟨hhead, hrest⟩ := List.pairwise_cons.mp hpair
    obtain ⟨i0, tot0, f0, acts0⟩ := t0
    cases acts0 with
    | nil =>
      -- the task has no actions: logged and skipped, nothing changes
      have hproc : process_file args st ⟨i0, tot0, f0, []⟩ =
          .ok ⟨st.destT, none, 0, false⟩ := rfl
      rw [run_tasks_cons_ok args st _ rest _ hproc]
      have ihr := ih st dbase hrest
        (fun t ht => hsrcs t (List.mem_cons_of_mem _ ht))
        (fun t ht => hout t (List.mem_cons_of_mem _ ht))
        (fun t ht => hexec t (List.mem_cons_of_mem _ ht))
        (fun t ht => hbase t (List.mem_cons_of_mem _ ht))
      refine ⟨ihr.1, ihr.2.1, ihr.2.2.1, ?_, ?_⟩
      · intro k o h' hm
        rcases List.mem_cons.mp hm with heq | hm2
        · cases heq
        · rcases ihr.2.2.2.1 k o h' hm2 with ⟨t, ht, hk⟩
          exact ⟨t, List.mem_cons_of_mem _ ht, hk⟩
      · intro t ht a0 arest hacts
        rcases List.mem_cons.mp ht with rfl | ht2
        · cases hacts
        · exact ihr.2.2.2.2 t ht2 a0 arest hacts
    | cons a0 arest =>
      have hmem0 : (⟨i0, tot0, f0, a0 :: arest⟩ : FileTask) ∈
          (⟨i0, tot0, f0, a0 :: arest⟩ : FileTask) :: rest :=
        List.mem_cons_self _ _
      rcases Option.isSome_iff_exists.mp
        (hout _ hmem0 a0 arest rfl) with ⟨raw, hraw⟩
      rcases Option.ne_none_iff_exists.mp (hsrcs _ hmem0) with ⟨c, hsrcc⟩
      have hsrcc' : lookupA st.srcT f0 = some c := hsrcc.symm
      cases hn : needs_processing args st.db st.destT f0
          (correct_path_fat32 raw) (calculate_hash args.md5 c) with
      | false =>
        -- the task is up to date and skipped
        have hproc := process_file_skip args st i0 tot0 f0 a0 arest raw c
          hraw hsrcc' hn
        rw [run_tasks_cons_ok args st _ rest _ hproc]
        have ihr := ih st dbase hrest
          (fun t ht => hsrcs t (List.mem_cons_of_mem _ ht))
          (fun t ht => hout t (List.mem_cons_of_mem _ ht))
          (fun t ht => hexec t (List.mem_cons_of_mem _ ht))
          (fun t ht => hbase t (List.mem_cons_of_mem _ ht))
        obtain ⟨hforce, hstored, hdest⟩ :=
          (needs_processing_eq_false args st.db st.destT f0
            (correct_path_fat32 raw) (calculate_hash args.md5 c)).mp hn
        refine ⟨ihr.1, ihr.2.1, ihr.2.2.1, ?_, ?_⟩
        · intro k o h' hm
          rcases List.mem_cons.mp hm with heq | hm2
          · cases heq
          · rcases ihr.2.2.2.1 k o h' hm2 with ⟨t, ht, hk⟩
            exact ⟨t, List.mem_cons_of_mem _ ht, hk⟩
        · intro t ht b0 brest hacts
          rcases List.mem_cons.mp ht with rfl | ht2
          · -- the claim for the skipped task itself
            cases hacts
            intro raw2 hraw2 c2 hsrcc2
            have hrr : raw2 = raw := by
              rw [hraw] at hraw2
              injection hraw2 with h
              exact h.symm
            have hcc : c2 = c := by
              rw [hsrcc'] at hsrcc2
              injection hsrcc2 with h
              exact h.symm
            subst hrr hcc
            rcases get_item_snd_some.mp hstored with ⟨oOld, hOld⟩
            constructor
            · refine ⟨oOld, ?_⟩
              show lookupA (commit dbase
                (run_tasks args st rest).2.1) f0 = _
              rw [commit_preserve f0 _ dbase ?_, hbase _ hmem0, hOld]
              intro k' o' h'' hm
              rcases ihr.2.2.2.1 k' o' h'' hm with ⟨t, ht, hk⟩
              rw [← hk]
              exact (hhead t ht).symm
            · exact ihr.2.2.1 _ hdest
          · exact ihr.2.2.2.2 t ht2 b0 brest hacts
      | true =>
        -- the task is processed: all actions run and succeed
        have hok : (execute_actions (a0 :: arest) c st.destT
            (correct_path_fat32 raw)).2.1 = true :=
          execute_actions_all_ok c (correct_path_fat32 raw) (a0 :: arest)
            st.destT (fun a ha s dc => hexec _ hmem0 a ha s dc)
        have hproc := process_file_success args st i0 tot0 f0 a0 arest raw c
          hraw hsrcc' hn hok
        rw [run_tasks_cons_ok args st _ rest _ hproc]
        set d2 := (execute_actions (a0 :: arest) c st.destT
          (correct_path_fat32 raw)).1 with hd2
        set st2 : SyncState := { st with destT := d2 } with hst2
        have hne : ∀ t ∈ rest, f0 ≠ t.in_filename := fun t ht => hhead t ht
        have ihr := ih st2 (setA dbase f0
            (correct_path_fat32 raw, calculate_hash args.md5 c)) hrest
          (fun t ht => hsrcs t (List.mem_cons_of_mem _ ht))
          (fun t ht => hout t (List.mem_cons_of_mem _ ht))
          (fun t ht => hexec t (List.mem_cons_of_mem _ ht))
          (fun t ht => by
            rw [lookupA_setA_ne _ _ _ _ (hne t ht)]
            exact hbase t (List.mem_cons_of_mem _ ht))
        have hmono : ∀ p, lookupA st.destT p ≠ none →
            lookupA st2.destT p ≠ none := fun p hp =>
          execute_actions_preserves_presence c (correct_path_fat32 raw) p
            (a0 :: arest) st.destT hp
        have hwrote : lookupA st2.destT (correct_path_fat32 raw) ≠ none :=
          execute_actions_ok_writes c (correct_path_fat32 raw) a0 arest
            st.destT hok
        refine ⟨ihr.1, ihr.2.1, ?_, ?_, ?_⟩
        · intro p hp
          exact ihr.2.2.1 p (hmono p hp)
        · intro k o h' hm
          rcases List.mem_cons.mp hm with heq | hm2
          · injection heq with heq2
            exact ⟨⟨i0, tot0, f0, a0 :: arest⟩, List.mem_cons_self _ _,
              (congrArg (fun x => x.1) heq2).symm⟩
          · rcases ihr.2.2.2.1 k o h' hm2 with ⟨t, ht, hk⟩
            exact ⟨t, List.mem_cons_of_mem _ ht, hk⟩
        · intro t ht b0 brest hacts
          rcases List.mem_cons.mp ht with rfl | ht2
          · cases hacts
            intro raw2 hraw2 c2 hsrcc2
            have hrr : raw2 = raw := by
              rw [hraw] at hraw2
              injection hraw2 with h
              exact h.symm
            have hcc : c2 = c := by
              rw [hsrcc'] at hsrcc2
              injection hsrcc2 with h
              exact h.symm
            rw [hrr, hcc]
            constructor
            · refine ⟨correct_path_fat32 raw, ?_⟩
              show lookupA (commit (setA dbase f0
                (correct_path_fat32 raw, calculate_hash args.md5 c))
                (run_tasks args st2 rest).2.1) f0 = _
              rw [commit_preserve f0 _ _ ?_, lookupA_setA_self]
              intro k' o' h'' hm
              rcases ihr.2.2.2.1 k' o' h'' hm with ⟨t, ht, hk⟩
              rw [← hk]
              exact (hhead t ht).symm
            · exact ihr.2.2.1 _ hwrote
          · exact ihr.2.2.2.2 t ht2 b0 brest hacts

/-- Unfolding of `sync_audio` when the enumeration is non-empty. -/
theorem sync_audio_run_eq (args : Args) (actionsOf : Path → List Action)
    (p0 : Option Database) (srcT destT : List (Path × Bytes))
    (hne : (list_all_files srcT).isEmpty = false) :
    sync_audio args actionsOf p0 srcT destT =
      { persisted := if args.storeWriteFails then p0 else
          some (commit
            (run_tasks args
              (clean_up_missing_files args ⟨srcT, destT, p0.getD []⟩)
              (make_file_tasks actionsOf (list_all_files srcT).length 1
                (list_all_files srcT))).1.db
            (run_tasks args
              (clean_up_missing_files args ⟨srcT, destT, p0.getD []⟩)
              (make_file_tasks actionsOf (list_all_files srcT).length 1
                (list_all_files srcT))).2.1),
        destT := (run_tasks args
          (clean_up_missing_files args ⟨srcT, destT, p0.getD []⟩)
          (make_file_tasks actionsOf (list_all_files srcT).length 1
            (list_all_files srcT))).1.destT,
        failed := false,
        invocations := (run_tasks args
          (clean_up_missing_files args ⟨srcT, destT, p0.getD []⟩)
          (make_file_tasks actionsOf (list_all_files srcT).length 1
            (list_all_files srcT))).2.2 } := by
  simp only [sync_audio, hne, Bool.false_eq_true, if_false]

/-- If every task is skipped without touching the destination, the loop
returns the state unchanged, only `None` results, and zero invocations. -/
theorem run_tasks_all_skip (args : Args) :
    ∀ (ts : List FileTask) (st : SyncState),
    (∀ t ∈ ts, ∃ u, process_file args st t = .ok ⟨st.destT, none, 0, u⟩) →
    run_tasks args st ts = (st, ts.map (fun _ => none), 0)
  | [], _ => fun _ => rfl
  | t :: rest, st => by
    intro hall
    rcases hall t (List.mem_cons_self _ _) with ⟨u, hproc⟩
    rw [run_tasks_cons_ok args st t rest _ hproc]
    have heq : run_tasks args
        ({ st with destT := (⟨st.destT, none, 0, u⟩ : ProcOut).destT })
        rest = run_tasks args st rest := rfl
    rw [heq, run_tasks_all_skip args rest st
      (fun x hx => hall x (List.mem_cons_of_mem _ hx))]
    rfl

/-- Reconciliation does not touch the source tree. -/
theorem clean_up_missing_files_srcT (args : Args) (st : SyncState) :
    (clean_up_missing_files args st).srcT = st.srcT :=
  cleanup_items_srcT args (db_items st.db) st

/-! ## Claims -/

/-- **C10.** `delete_empty_directories` removes a node exactly when it is a
directory all of whose transitive entries are directories (any contained
file prevents removal of the chain up to the given root), and its boolean
result is `True` exactly when it removed the node it was given; in
particular a root directory containing no files is deleted itself. -/
theorem delete_empty_directories_correct (t : FSNode) :
    (delete_empty_directories t).2 = (t.isDir && no_files_node t)
    ∧ ((delete_empty_directories t).1 = none
        ↔ (delete_empty_directories t).2 = true) := by
  refine ⟨?_, delete_empty_directories_removed t⟩
  rw [delete_empty_directories_snd t]
  cases t <;> simp [FSNode.isDir, no_files_node]

/-- **C8.** Every store access operation invoked while the store is not
open (`_database is None`) raises `RuntimeError` immediately, for every
argument value. -/
theorem hashdb_closed_raises (h : HashDb) (hclosed : h.database = none)
    (k o hs : String) :
    h.get_items = .error "Method must be used within context manager"
    ∧ h.get_item k = .error "Method must be used within context manager"
    ∧ h.add_item k o hs = .error "Method must be used within context manager"
    ∧ h.delete_item k = .error "Method must be used within context manager" := by
  obtain ⟨d⟩ := h
  cases hclosed
  exact ⟨rfl, rfl, rfl, rfl⟩

/-- Witness for C8 at a concrete closed store and concrete arguments. -/
theorem hashdb_closed_raises_witness :
    (HashDb.mk none).get_items = .error "Method must be used within context manager"
    ∧ (HashDb.mk none).get_item "a" = .error "Method must be used within context manager"
    ∧ (HashDb.mk none).add_item "a" "b" "c" = .error "Method must be used within context manager"
    ∧ (HashDb.mk none).delete_item "a" = .error "Method must be used within context manager" :=
  hashdb_closed_raises (HashDb.mk none) rfl "a" "b" "c"

/-- **C9.** On an open store, `get_item` for a source path with no record
returns the `(None, None)` sentinel rather than raising, and the playlist
rewriter treats exactly that sentinel (first component `None`) as absence:
on such a name it strips the first segment and retries (or gives up when
no segment remains). -/
theorem get_item_absent_sentinel (db : Database) (k : Path)
    (habs : lookupA db k = none) :
    get_item db k = (none, none)
    ∧ (∀ (s : List Char) (segs : List (List Char)),
        String.mk (join_segments (s :: segs)) = k →
        lookup_with_stripping db (s :: segs) =
          match segs with
          | [] => none
          | _ :: _ => lookup_with_stripping db segs) := by
  have hget : get_item db k = (none, none) := by
    simp [get_item, habs]
  refine ⟨hget, fun s segs hname => ?_⟩
  rw [lookup_with_stripping_cons, hname, hget]

/-- Witness for C9: `x/y` has no record in `demo_db`, the lookup yields the
sentinel and the rewriter strips down to `y`. -/
theorem get_item_absent_sentinel_witness :
    get_item demo_db "x/y" = (none, none)
    ∧ lookup_with_stripping demo_db [['x'], ['y']] =
        lookup_with_stripping demo_db [['y']] := by
  have h := get_item_absent_sentinel demo_db "x/y" (by decide)
  exact ⟨h.1, h.2 ['x'] [['y']] rfl⟩

/-- **C1.** For a task with a non-empty action list (whose first action
produces a destination name, on a readable source file) `_process_file`
applies the actions — makes at least one `execute` call — if and only if
the force flag is set, or there is no stored record, or the stored
fingerprint differs from the current one, or the destination file does not
exist; when the actions are applied and none of them raises `IOError`, the
`(source path, sanitized destination path, new fingerprint)` triple is
returned; in every other case the file is logged as up to date
(`uptodate`), no result is returned and the destination tree is not
touched.  A returned triple conversely implies the needs-processing
condition. -/
theorem process_file_decision (args : Args) (st : SyncState) (i tot : Nat)
    (f : Path) (a0 : Action) (rest : List Action) (raw : Path) (c : Bytes)
    (hraw : a0.get_out_filename f = some raw)
    (hsrc : lookupA st.srcT f = some c) :
    ∃ po, process_file args st ⟨i, tot, f, a0 :: rest⟩ = .ok po
    ∧ ((0 < po.invocations) ↔
        needs_processing args st.db st.destT f (correct_path_fat32 raw)
          (calculate_hash args.md5 c) = true)
    ∧ (po.result.isSome →
        needs_processing args st.db st.destT f (correct_path_fat32 raw)
          (calculate_hash args.md5 c) = true)
    ∧ (needs_processing args st.db st.destT f (correct_path_fat32 raw)
          (calculate_hash args.md5 c) = true →
        (execute_actions (a0 :: rest) c st.destT (correct_path_fat32 raw)).2.1
          = true →
        po.result = some (f, correct_path_fat32 raw, calculate_hash args.md5 c))
    ∧ (needs_processing args st.db st.destT f (correct_path_fat32 raw)
          (calculate_hash args.md5 c) = false →
        po.result = none ∧ po.uptodate = true ∧ po.destT = st.destT) := by
  rw [process_file_eq args st i tot f a0 rest raw c hraw hsrc]
  cases hn : needs_processing args st.db st.destT f (correct_path_fat32 raw)
      (calculate_hash args.md5 c) with
  | false =>
    simp only [hn, Bool.false_eq_true, if_false]
    refine ⟨_, rfl, ?_, ?_, ?_, ?_⟩ <;> simp
  | true =>
    simp only [hn, if_true]
    cases hok : (execute_actions (a0 :: rest) c st.destT
        (correct_path_fat32 raw)).2.1 with
    | true =>
      simp only [hok, if_true]
      refine ⟨_, rfl, ?_, ?_, ?_, ?_⟩
      · simp [execute_actions_invocations_pos]
      · simp
      · intro _ _; rfl
      · intro hfalse; cases hfalse
    | false =>
      simp only [hok, Bool.false_eq_true, if_false]
      refine ⟨_, rfl, ?_, ?_, ?_, ?_⟩
      · simp [execute_actions_invocations_pos]
      · simp
      · intro _ hok2; exact hok2.elim
      · intro hfalse; cases hfalse

/-- Witness for C1: a new file (no stored record) is processed by the
`Copy` action and the triple is returned; invocations are positive. -/
theorem process_file_decision_witness :
    ∃ po, process_file demo_args ⟨[("x.mp3", [1, 2])], [], []⟩
        ⟨1, 1, "x.mp3", [copy_action]⟩ = .ok po
    ∧ ((0 < po.invocations) ↔
        needs_processing demo_args [] [] "x.mp3" (correct_path_fat32 "x.mp3")
          (calculate_hash demo_args.md5 [1, 2]) = true)
    ∧ (po.result.isSome →
        needs_processing demo_args [] [] "x.mp3" (correct_path_fat32 "x.mp3")
          (calculate_hash demo_args.md5 [1, 2]) = true)
    ∧ (needs_processing demo_args [] [] "x.mp3" (correct_path_fat32 "x.mp3")
          (calculate_hash demo_args.md5 [1, 2]) = true →
        (execute_actions [copy_action] [1, 2] [] (correct_path_fat32 "x.mp3")).2.1
          = true →
        po.result = some ("x.mp3", correct_path_fat32 "x.mp3",
          calculate_hash demo_args.md5 [1, 2]))
    ∧ (needs_processing demo_args [] [] "x.mp3" (correct_path_fat32 "x.mp3")
          (calculate_hash demo_args.md5 [1, 2]) = false →
        po.result = none ∧ po.uptodate = true ∧ po.destT = []) :=
  process_file_decision demo_args ⟨[("x.mp3", [1, 2])], [], []⟩ 1 1 "x.mp3"
    copy_action [] "x.mp3" [1, 2] rfl (by simp [lookupA])

/-- **C7.** `correct_path_fat32` replaces every occurrence of any of
`\ : * ? " < > |` by `_` and leaves every other character (including the
`/` separator) unchanged; and the name a successful `_process_file` call
returns (and that is then stored in the record) is exactly
`correct_path_fat32` of the first action's destination name. -/
theorem correct_path_fat32_correct (s : String) :
    (correct_path_fat32 s).data = s.data.map (fun c =>
      if c = '\\' ∨ c = ':' ∨ c = '*' ∨ c = '?' ∨ c = '"' ∨ c = '<' ∨ c = '>'
          ∨ c = '|' then '_' else c)
    ∧ (∀ (args : Args) (st : SyncState) (task : FileTask) (po : ProcOut),
        process_file args st task = .ok po →
        ∀ i o h, po.result = some (i, o, h) →
        ∃ a0 rest raw, task.actions = a0 :: rest
          ∧ a0.get_out_filename task.in_filename = some raw
          ∧ o = correct_path_fat32 raw ∧ i = task.in_filename) := by
  constructor
  · show fat32Sub s.data = _
    rw [fat32Sub_eq_map]
    apply List.map_congr_left
    intro c _
    have hiff : c ∈ fat32IllegalChars ↔
        (c = '\\' ∨ c = ':' ∨ c = '*' ∨ c = '?' ∨ c = '"' ∨ c = '<' ∨ c = '>'
          ∨ c = '|') := by
      simp only [fat32IllegalChars, List.mem_cons, List.not_mem_nil, or_false]
      tauto
    exact if_congr hiff rfl rfl
  · intro args st task po hok i o h hres
    obtain ⟨idx, tot, f, acts⟩ := task
    cases acts with
    | nil =>
      simp only [process_file, Except.ok.injEq] at hok
      rw [← hok] at hres
      cases hres
    | cons a0 rest =>
      cases hraw : a0.get_out_filename f with
      | none => simp [process_file, hraw] at hok
      | some raw =>
        cases hsrc : lookupA st.srcT f with
        | none => simp [process_file, hraw, hsrc] at hok
        | some c =>
          refine ⟨a0, rest, raw, rfl, hraw, ?_⟩
          rw [process_file_eq args st idx tot f a0 rest raw c hraw hsrc] at hok
          cases hn : needs_processing args st.db st.destT f
              (correct_path_fat32 raw) (calculate_hash args.md5 c) with
          | false =>
            simp only [hn, Bool.false_eq_true, if_false, Except.ok.injEq] at hok
            rw [← hok] at hres
            cases hres
          | true =>
            simp only [hn, if_true] at hok
            cases hexec : (execute_actions (a0 :: rest) c st.destT
                (correct_path_fat32 raw)).2.1 with
            | false =>
              simp only [hexec, Bool.false_eq_true, if_false,
                Except.ok.injEq] at hok
              rw [← hok] at hres
              cases hres
            | true =>
              simp only [hexec, if_true, Except.ok.injEq] at hok
              rw [← hok] at hres
              simp only [Option.some.injEq, Prod.mk.injEq] at hres
              exact ⟨hres.2.1.symm, hres.1.symm⟩

/-- Witness for C7's second part at a concrete successful call. -/
theorem correct_path_fat32_correct_witness :
    (correct_path_fat32 "a:b").data = ("a:b").data.map (fun c =>
      if c = '\\' ∨ c = ':' ∨ c = '*' ∨ c = '?' ∨ c = '"' ∨ c = '<' ∨ c = '>'
          ∨ c = '|' then '_' else c)
    ∧ ∃ a0 rest raw, ([copy_action] : List Action) = a0 :: rest
        ∧ a0.get_out_filename "x.mp3" = some raw
        ∧ "x.mp3" = correct_path_fat32 raw ∧ "x.mp3" = "x.mp3" := by
  refine ⟨(correct_path_fat32_correct "a:b").1, ?_⟩
  exact (correct_path_fat32_correct "x").2 demo_args ⟨[("x.mp3", [1, 2])], [], []⟩
    ⟨1, 1, "x.mp3", [copy_action]⟩ _ rfl "x.mp3" "x.mp3"
    (calculate_hash demo_args.md5 [1, 2]) rfl

/-- **C6.** `calculate_hash` digests only the first 4096 bytes of the
file: any two files with equal 4096-byte prefixes get equal fingerprint
strings, whatever the digest function is and however the files differ
beyond the prefix; consequently, when the stored record carries the
fingerprint of the old content and the destination file exists, the
needs-processing decision for the changed content is a (false) "unchanged"
skip. -/
theorem calculate_hash_prefix_only (md5 : Bytes → String) (c1 c2 : Bytes)
    (hpre : c1.take 4096 = c2.take 4096) :
    calculate_hash md5 c1 = calculate_hash md5 c2
    ∧ (∀ (args : Args) (db : Database) (destT : List (Path × Bytes))
        (f out : Path) (o : String),
        args.md5 = md5 → args.force = false →
        lookupA db f = some (o, calculate_hash md5 c1) →
        (lookupA destT out).isSome →
        needs_processing args db destT f out (calculate_hash args.md5 c2)
          = false) := by
  have hhash : calculate_hash md5 c1 = calculate_hash md5 c2 := by
    unfold calculate_hash
    rw [hpre]
  refine ⟨hhash, fun args db destT f out o hmd5 hforce hdb hdest => ?_⟩
  subst hmd5
  simp only [needs_processing, get_item, hdb, hforce, hhash]
  simp only [Option.isNone_some, Bool.false_or, decide_True, Bool.not_true,
    Bool.false_or]
  simp [Option.isNone_iff_eq_none, hdest]

/-- Witness for C6: two concrete files that agree on the first 4096 bytes
but differ at byte 4097 get the same fingerprint. -/
theorem calculate_hash_prefix_only_witness :
    List.replicate 4097 0 ≠ List.replicate 4096 0 ++ [9]
    ∧ (List.replicate 4097 (0 : Nat)).take 4096 =
        (List.replicate 4096 (0 : Nat) ++ [9]).take 4096
    ∧ calculate_hash (fun b => toString b.length) (List.replicate 4097 0) =
        calculate_hash (fun b => toString b.length)
          (List.replicate 4096 0 ++ [9]) := by
  have hpre : (List.replicate 4097 (0 : Nat)).take 4096 =
      (List.replicate 4096 (0 : Nat) ++ [9]).take 4096 := by
    rw [List.take_replicate, List.take_left' (by rw [List.length_replicate])]
    norm_num
  refine ⟨?_, hpre, (calculate_hash_prefix_only
    (fun b => toString b.length) _ _ hpre).1⟩
  intro h
  have hdrop := congrArg (List.drop 4096) h
  rw [List.drop_replicate, List.drop_left' (by rw [List.length_replicate])]
    at hdrop
  norm_num at hdrop

/-- **C4, counterexample.** On an empty source root with no pre-existing
store file, `sync_audio` does raise the fatal "no input files" condition,
but the on-disk store file is *created* on the way out: the
`FileNotFoundError` propagates through `HashDb.__exit__`, which writes the
(empty) database unconditionally.  This refutes "the on-disk store file is
neither created nor rewritten". -/
theorem sync_audio_empty_creates_store :
    (sync_audio demo_args (fun _ => []) none [] []).failed = true
    ∧ (sync_audio demo_args (fun _ => []) none [] []).persisted = some []
    ∧ (sync_audio demo_args (fun _ => []) none [] []).persisted ≠ none := by
  have h2 : (sync_audio demo_args (fun _ => []) none [] []).persisted
      = some [] := rfl
  refine ⟨rfl, h2, ?_⟩
  intro h
  rw [h2] at h
  exact Option.noConfusion h

/-- **C4, amended.** When the source root enumerates to zero files, the
run raises the fatal "no input files" condition before reconciliation or
any destination-tree mutation: the destination tree is untouched and the
store *mapping* is unchanged.  However, the store's close handler still
writes the on-disk store file on the way out — it is created with the
empty mapping if it was absent, or rewritten with its loaded contents —
unless that write itself fails, in which case the previous file is left
as it was. -/
theorem sync_audio_no_input_files (args : Args) (actionsOf : Path → List Action)
    (p0 : Option Database) (srcT destT : List (Path × Bytes))
    (hempty : list_all_files srcT = []) :
    (sync_audio args actionsOf p0 srcT destT).failed = true
    ∧ (sync_audio args actionsOf p0 srcT destT).destT = destT
    ∧ (args.storeWriteFails = false →
        (sync_audio args actionsOf p0 srcT destT).persisted = some (p0.getD []))
    ∧ (args.storeWriteFails = true →
        (sync_audio args actionsOf p0 srcT destT).persisted = p0) := by
  refine ⟨?_, ?_, fun hw => ?_, fun hw => ?_⟩ <;>
    simp [sync_audio, hempty, *]

/-- Witness for the amended C4 at a concrete empty source root with a
pre-existing store file. -/
theorem sync_audio_no_input_files_witness :
    (sync_audio demo_args (fun _ => [copy_action]) (some demo_db) []
        [("old.mp3", [1])]).failed = true
    ∧ (sync_audio demo_args (fun _ => [copy_action]) (some demo_db) []
        [("old.mp3", [1])]).destT = [("old.mp3", [1])]
    ∧ (demo_args.storeWriteFails = false →
        (sync_audio demo_args (fun _ => [copy_action]) (some demo_db) []
          [("old.mp3", [1])]).persisted = some ((some demo_db).getD []))
    ∧ (demo_args.storeWriteFails = true →
        (sync_audio demo_args (fun _ => [copy_action]) (some demo_db) []
          [("old.mp3", [1])]).persisted = some demo_db) :=
  sync_audio_no_input_files demo_args (fun _ => [copy_action]) (some demo_db)
    [] [("old.mp3", [1])] rfl

/-- **C5, counterexample.** With the store mapping
`Artist/Song.flac → Artist/Song.mp3`, the backslash-separated playlist
line `C:\Music\Artist\Song.flac` is *dropped*, not resolved: segment
stripping uses `in_filename.split("/", 1)`, which finds no forward slash
in the line, so the first strip raises `IndexError` and the line is
discarded with a warning.  The claimed output `Artist\Song.mp3` + CR+LF is
not produced. -/
theorem sync_playlist_backslash_line_dropped :
    sync_playlist_line demo_db "C:\\Music\\Artist\\Song.flac" = none
    ∧ sync_playlist_line demo_db "C:\\Music\\Artist\\Song.flac"
        ≠ some ("Artist\\Song.mp3" ++ "\r\n") := by
  have h2 : sync_playlist_line demo_db "C:\\Music\\Artist\\Song.flac"
      = none := by decide
  refine ⟨h2, ?_⟩
  intro h
  rw [h2] at h
  exact Option.noConfusion h

/-- **C5, amended.** For every non-comment playlist line, the rewriter
looks the line up in the store and, while no (truthy) match is found,
progressively strips the first *forward-slash* path segment and retries
until a match is found or no forward-slash segment remains, dropping the
line when exhausted; a resolved line is emitted with separators rewritten
to backslash and CR+LF appended.  Because stripping splits on `/` only,
the backslash-separated line `C:\Music\Artist\Song.flac` is dropped; the
spec's example holds for the forward-slash line `C:/Music/Artist/Song.flac`,
which resolves after stripping `C:` and then `Music` to the output line
`Artist\Song.mp3` + CR+LF. -/
theorem sync_playlist_segment_stripping :
    (∀ (db : Database) (s : List Char) (segs : List (List Char)),
      (get_item db ⟨join_segments (s :: segs)⟩).1 = none →
      lookup_with_stripping db (s :: segs) =
        match segs with
        | [] => none
        | _ :: _ => lookup_with_stripping db segs)
    ∧ (∀ (db : Database) (s : List Char) (segs : List (List Char)) (o : String),
        (get_item db ⟨join_segments (s :: segs)⟩).1 = some o →
        o ≠ "" → lookup_with_stripping db (s :: segs) = some o)
    ∧ (∀ (db : Database) (line : String),
        ("#EXT".data).isPrefixOf line.data = false →
        (lookup_with_stripping db (split_on_slash line.data) = none →
          sync_playlist_line db line = none)
        ∧ (∀ o, lookup_with_stripping db (split_on_slash line.data) = some o →
            sync_playlist_line db line =
              some (replace_slash_backslash o ++ "\r\n")))
    ∧ sync_playlist_line demo_db "C:/Music/Artist/Song.flac"
        = some ("Artist\\Song.mp3" ++ "\r\n")
    ∧ sync_playlist_line demo_db "C:\\Music\\Artist\\Song.flac" = none := by
  refine ⟨?_, ?_, ?_, by decide, by decide⟩
  · intro db s segs hmiss
    rw [lookup_with_stripping_cons, hmiss]
  · intro db s segs o hhit ho
    rw [lookup_with_stripping_cons, hhit]
    simp [ho]
  · intro db line hline
    constructor
    · intro hmiss
      simp [sync_playlist_line, hline, hmiss]
    · intro o hhit
      simp [sync_playlist_line, hline, hhit]

/-- Witness for the amended C5: the two steps of stripping on the
forward-slash example, and a direct hit. -/
theorem sync_playlist_segment_stripping_witness :
    lookup_with_stripping demo_db
        ("C:".data :: ["Music".data, "Artist".data, "Song.flac".data]) =
      lookup_with_stripping demo_db
        ["Music".data, "Artist".data, "Song.flac".data]
    ∧ lookup_with_stripping demo_db ("Artist".data :: ["Song.flac".data])
        = some "Artist/Song.mp3"
    ∧ sync_playlist_line demo_db "song.mp3" = none := by
  refine ⟨?_, ?_, ?_⟩
  · exact sync_playlist_segment_stripping.1 demo_db "C:".data
      ["Music".data, "Artist".data, "Song.flac".data] (by decide)
  · exact sync_playlist_segment_stripping.2.1 demo_db "Artist".data
      ["Song.flac".data] "Artist/Song.mp3" (by decide) (by decide)
  · exact (sync_playlist_segment_stripping.2.2.1 demo_db "song.mp3"
      (by decide)).1 (by decide)

/-- **C3.** During reconciliation in batch mode, for a stored record
`(k, o, h')` whose source path `k` no longer exists (stated for a store
with distinct keys whose other records do not map to the same destination
`o`): if the mapped destination file exists it is deleted — without
prompting, since the conclusion holds for *every* `confirm` oracle — and
the record is removed; the record is removed if and only if the
destination file is absent after the deletion attempt; and if the
deletion raises an `OSError` the record is retained unchanged (and the
destination file stays) for retry on a future run. -/
theorem clean_up_orphan_record (args : Args) (st : SyncState)
    (k o h' : String)
    (hbatch : args.batch = true)
    (hmiss : lookupA st.srcT k = none)
    (hmem : (k, o, h') ∈ db_items st.db)
    (hnd : (st.db.map Prod.fst).Nodup)
    (halias : ∀ k' o' h'', (k', o', h'') ∈ db_items st.db → k' ≠ k → o' ≠ o) :
    ((lookupA st.destT o).isSome → args.unlinkFails o = false →
      lookupA (clean_up_missing_files args st).destT o = none
      ∧ lookupA (clean_up_missing_files args st).db k = none)
    ∧ ((lookupA st.destT o).isSome → args.unlinkFails o = true →
      lookupA (clean_up_missing_files args st).db k = some (o, h')
      ∧ lookupA (clean_up_missing_files args st).destT o = lookupA st.destT o)
    ∧ (lookupA st.destT o = none →
      lookupA (clean_up_missing_files args st).db k = none
      ∧ lookupA (clean_up_missing_files args st).destT o = none)
    ∧ (lookupA (clean_up_missing_files args st).db k = none
        ↔ lookupA (clean_up_missing_files args st).destT o = none) := by
  -- split the snapshot around the orphan record
  obtain ⟨L1, L2, hsplit⟩ := List.append_of_mem hmem
  have hkeys : st.db.map Prod.fst =
      L1.map (fun x => x.1) ++ k :: L2.map (fun x => x.1) := by
    rw [← db_items_keys, hsplit]
    simp
  rw [hkeys] at hnd
  have hknotin1 : k ∉ L1.map (fun x => x.1) := by
    have := (List.nodup_append.mp hnd).2.2
    intro hk
    exact this hk (List.mem_cons_self _ _)
  have hknotin2 : k ∉ L2.map (fun x => x.1) := by
    have := (List.nodup_append.mp hnd).2.1
    exact (List.nodup_cons.mp this).1
  have hmemall : ∀ it, it ∈ L1 ∨ it ∈ L2 → it ∈ db_items st.db := by
    intro it hit
    rw [hsplit]
    rcases hit with h1 | h2
    · exact List.mem_append_left _ h1
    · exact List.mem_append_right _ (List.mem_cons_of_mem _ h2)
  have hother : ∀ (L : List (Path × String × String)),
      (∀ it ∈ L, it ∈ db_items st.db) → k ∉ L.map (fun x => x.1) →
      ∀ it ∈ L, it.1 ≠ k ∧ it.2.1 ≠ o := by
    intro L hLmem hknot it hit
    obtain ⟨ik, io, ihh⟩ := it
    have hik : ik ≠ k := by
      intro hk1
      subst hk1
      exact hknot (List.mem_map.mpr ⟨(ik, io, ihh), hit, rfl⟩)
    exact ⟨hik, halias ik io ihh (hLmem _ hit) hik⟩
  have hother1 := hother L1 (fun it h1 => hmemall it (Or.inl h1)) hknotin1
  have hother2 := hother L2 (fun it h2 => hmemall it (Or.inr h2)) hknotin2
  -- run the fold up to the orphan record
  have hrun : clean_up_missing_files args st =
      cleanup_items args L2
        (cleanup_step args (cleanup_items args L1 st) (k, o, h')) := by
    rw [clean_up_missing_files, hsplit, cleanup_items_append]
    rfl
  have h1 := cleanup_items_other args k o L1 st hother1
  have hsrc1 : lookupA (cleanup_items args L1 st).srcT k = none := by
    rw [cleanup_items_srcT]
    exact hmiss
  have hdbk : lookupA st.db k = some (o, h') :=
    lookupA_of_mem_nodup (mem_db_items.mp hmem) (by rw [hkeys]; exact hnd)
  -- case analysis on the initial state of the destination file
  cases hdest : lookupA st.destT o with
  | none =>
    have hdest1 : lookupA (cleanup_items args L1 st).destT o = none := by
      rw [h1.2, hdest]
    have hstep := cleanup_step_orphan_dest_absent args
      (cleanup_items args L1 st) k o h' hsrc1 hdest1
    have h2 := cleanup_items_other args k o L2
      (cleanup_step args (cleanup_items args L1 st) (k, o, h')) hother2
    rw [hrun]
    rw [hstep] at h2 ⊢
    have hdbk2 : lookupA (removeA (cleanup_items args L1 st).db k) k = none :=
      lookupA_removeA_self _ _
    refine ⟨?_, ?_, ?_, ?_⟩
    · intro hso _
      simp at hso
    · intro hso _
      simp at hso
    · intro _
      exact ⟨by rw [h2.1]; exact hdbk2, by rw [h2.2]; exact hdest1⟩
    · rw [h2.1, h2.2, hdbk2, hdest1]
      simp
  | some v =>
    have hdest1 : lookupA (cleanup_items args L1 st).destT o = some v := by
      rw [h1.2, hdest]
    cases hunl : args.unlinkFails o with
    | false =>
      have hstep := cleanup_step_orphan_unlink_ok args
        (cleanup_items args L1 st) k o h' hbatch hsrc1
        (by rw [hdest1]; rfl) hunl
      have h2 := cleanup_items_other args k o L2
        (cleanup_step args (cleanup_items args L1 st) (k, o, h')) hother2
      rw [hrun]
      rw [hstep] at h2 ⊢
      have hdbk2 : lookupA (removeA (cleanup_items args L1 st).db k) k = none :=
        lookupA_removeA_self _ _
      have hdest2 : lookupA (removeA (cleanup_items args L1 st).destT o) o
          = none := lookupA_removeA_self _ _
      refine ⟨?_, ?_, ?_, ?_⟩
      · intro _ _
        exact ⟨by rw [h2.2]; exact hdest2, by rw [h2.1]; exact hdbk2⟩
      · intro _ hunl2
        exact Bool.noConfusion hunl2
      · intro habs
        exact Option.noConfusion habs
      · rw [h2.1, h2.2, hdbk2, hdest2]
        simp
    | true =>
      have hstep := cleanup_step_orphan_unlink_fails args
        (cleanup_items args L1 st) k o h' hbatch hsrc1
        (by rw [hdest1]; rfl) hunl
      have h2 := cleanup_items_other args k o L2
        (cleanup_step args (cleanup_items args L1 st) (k, o, h')) hother2
      rw [hrun]
      rw [hstep] at h2 ⊢
      have hdbfin : lookupA (cleanup_items args L2 (cleanup_items args L1 st)).db
          k = some (o, h') := by
        rw [h2.1, h1.1, hdbk]
      have hdestfin :
          lookupA (cleanup_items args L2 (cleanup_items args L1 st)).destT o
          = some v := by
        rw [h2.2, hdest1]
      refine ⟨?_, ?_, ?_, ?_⟩
      · intro _ hunl2
        exact Bool.noConfusion hunl2
      · intro _ _
        exact ⟨hdbfin, by rw [hdestfin]⟩
      · intro habs
        exact Option.noConfusion habs
      · rw [hdbfin, hdestfin]
        simp

/-- **C2.** Running the synchronization twice over an unchanged source
tree — same sources (hence same fingerprints), destination tree and store
file carried over from the first run, force flag unset — performs zero
`Action.execute` invocations on the second run and leaves the destination
tree byte-identical; every task of the second run with a non-empty action
list takes the "Skipping up to date file" branch.  Stated under the
benign-run conditions: batch mode, no failing unlink or store write,
distinct source paths, a non-empty enumeration, actions that yield
destination names and whose `execute` never raises. -/
theorem sync_audio_idempotent (args : Args) (actionsOf : Path → List Action)
    (p0 : Option Database) (srcT destT : List (Path × Bytes))
    (hforce : args.force = false)
    (hbatch : args.batch = true)
    (hunl : ∀ p, args.unlinkFails p = false)
    (hsw : args.storeWriteFails = false)
    (hnd : (srcT.map Prod.fst).Nodup)
    (hfiles : (list_all_files srcT).isEmpty = false)
    (hout : ∀ f a0 rest, actionsOf f = a0 :: rest →
      (a0.get_out_filename f).isSome)
    (hexec : ∀ f, ∀ a ∈ actionsOf f, ∀ s d, (a.transform s d).isSome) :
    (sync_audio args actionsOf
        (sync_audio args actionsOf p0 srcT destT).persisted srcT
        (sync_audio args actionsOf p0 srcT destT).destT).invocations = 0
    ∧ (sync_audio args actionsOf
        (sync_audio args actionsOf p0 srcT destT).persisted srcT
        (sync_audio args actionsOf p0 srcT destT).destT).destT
      = (sync_audio args actionsOf p0 srcT destT).destT
    ∧ (∀ f ∈ list_all_files srcT, ∀ i tot : Nat,
        actionsOf f ≠ [] →
        process_file args
          ⟨srcT, (sync_audio args actionsOf p0 srcT destT).destT,
            ((sync_audio args actionsOf p0 srcT destT).persisted).getD []⟩
          ⟨i, tot, f, actionsOf f⟩
        = .ok ⟨(sync_audio args actionsOf p0 srcT destT).destT,
            none, 0, true⟩) := by
  have hst1src : (clean_up_missing_files args
      ⟨srcT, destT, p0.getD []⟩).srcT = srcT :=
    clean_up_missing_files_srcT args _
  have hfnd : (list_all_files srcT).Nodup := hnd.filter _
  have hfmem : ∀ f ∈ list_all_files srcT, lookupA srcT f ≠ none := fun f hf =>
    lookupA_isSome_of_mem_keys (List.mem_of_mem_filter hf)
  have htmem : ∀ t ∈ make_file_tasks actionsOf (list_all_files srcT).length 1
        (list_all_files srcT),
      t.in_filename ∈ list_all_files srcT
      ∧ t.actions = actionsOf t.in_filename :=
    fun t ht => make_file_tasks_mem actionsOf _ _ _ t ht
  have htpair := make_file_tasks_pairwise actionsOf
    (list_all_files srcT).length 1 (list_all_files srcT) hfnd
  obtain ⟨hdb2, hsrc2, hmono, hkeys, hmain⟩ := run_tasks_spec args
    (make_file_tasks actionsOf (list_all_files srcT).length 1
      (list_all_files srcT))
    (clean_up_missing_files args ⟨srcT, destT, p0.getD []⟩)
    (clean_up_missing_files args ⟨srcT, destT, p0.getD []⟩).db
    htpair
    (fun t ht => by rw [hst1src]; exact hfmem _ (htmem t ht).1)
    (fun t ht a0 rest h =>
      hout t.in_filename a0 rest (((htmem t ht).2).symm.trans h))
    (fun t ht a ha s d =>
      hexec t.in_filename a ((htmem t ht).2 ▸ ha) s d)
    (fun t ht => rfl)
  -- run 1 produces this result
  have hr1 : sync_audio args actionsOf p0 srcT destT =
      { persisted := some (commit
          (clean_up_missing_files args ⟨srcT, destT, p0.getD []⟩).db
          (run_tasks args
            (clean_up_missing_files args ⟨srcT, destT, p0.getD []⟩)
            (make_file_tasks actionsOf (list_all_files srcT).length 1
              (list_all_files srcT))).2.1),
        destT := (run_tasks args
          (clean_up_missing_files args ⟨srcT, destT, p0.getD []⟩)
          (make_file_tasks actionsOf (list_all_files srcT).length 1
            (list_all_files srcT))).1.destT,
        failed := false,
        invocations := (run_tasks args
          (clean_up_missing_files args ⟨srcT, destT, p0.getD []⟩)
          (make_file_tasks actionsOf (list_all_files srcT).length 1
            (list_all_files srcT))).2.2 } := by
    rw [sync_audio_run_eq args actionsOf p0 srcT destT hfiles, hsw, hdb2]
    rfl
  -- every record of the committed database has an existing source
  have hdb1src : ∀ k,
      lookupA (commit
        (clean_up_missing_files args ⟨srcT, destT, p0.getD []⟩).db
        (run_tasks args
          (clean_up_missing_files args ⟨srcT, destT, p0.getD []⟩)
          (make_file_tasks actionsOf (list_all_files srcT).length 1
            (list_all_files srcT))).2.1) k ≠ none →
      lookupA srcT k ≠ none := by
    intro k hk
    rcases commit_origin k _ _ hk with h1 | ⟨o, h2, hm⟩
    · exact clean_up_survivors_have_sources args ⟨srcT, destT, p0.getD []⟩
        hbatch hunl k h1
    · rcases hkeys k o h2 hm with ⟨t, ht, hk2⟩
      rw [← hk2]
      exact hfmem _ (htmem t ht).1
  -- the per-file facts established by the first run
  have hfile : ∀ f ∈ list_all_files srcT, ∀ a0 arest,
      actionsOf f = a0 :: arest →
      ∀ raw, a0.get_out_filename f = some raw →
      ∀ c, lookupA srcT f = some c →
      (∃ o2, lookupA (commit
          (clean_up_missing_files args ⟨srcT, destT, p0.getD []⟩).db
          (run_tasks args
            (clean_up_missing_files args ⟨srcT, destT, p0.getD []⟩)
            (make_file_tasks actionsOf (list_all_files srcT).length 1
              (list_all_files srcT))).2.1) f
          = some (o2, calculate_hash args.md5 c))
      ∧ lookupA (run_tasks args
          (clean_up_missing_files args ⟨srcT, destT, p0.getD []⟩)
          (make_file_tasks actionsOf (list_all_files srcT).length 1
            (list_all_files srcT))).1.destT (correct_path_fat32 raw)
          ≠ none := by
    intro f hf a0 arest hacts raw hraw c hc
    rcases make_file_tasks_mem_of actionsOf (list_all_files srcT).length 1
      (list_all_files srcT) f hf with ⟨j, hj⟩
    exact hmain _ hj a0 arest hacts raw hraw c (by rw [hst1src]; exact hc)
  -- the second run reconciles nothing
  have hclean2 : clean_up_missing_files args
      ⟨srcT,
        (run_tasks args
          (clean_up_missing_files args ⟨srcT, destT, p0.getD []⟩)
          (make_file_tasks actionsOf (list_all_files srcT).length 1
            (list_all_files srcT))).1.destT,
        commit (clean_up_missing_files args ⟨srcT, destT, p0.getD []⟩).db
          (run_tasks args
            (clean_up_missing_files args ⟨srcT, destT, p0.getD []⟩)
            (make_file_tasks actionsOf (list_all_files srcT).length 1
              (list_all_files srcT))).2.1⟩ =
      ⟨srcT,
        (run_tasks args
          (clean_up_missing_files args ⟨srcT, destT, p0.getD []⟩)
          (make_file_tasks actionsOf (list_all_files srcT).length 1
            (list_all_files srcT))).1.destT,
        commit (clean_up_missing_files args ⟨srcT, destT, p0.getD []⟩).db
          (run_tasks args
            (clean_up_missing_files args ⟨srcT, destT, p0.getD []⟩)
            (make_file_tasks actionsOf (list_all_files srcT).length 1
              (list_all_files srcT))).2.1⟩ := by
    apply cleanup_items_id
    intro it hit
    refine hdb1src it.1 (lookupA_isSome_of_mem_keys ?_)
    rw [← db_items_keys]
    exact List.mem_map.mpr ⟨it, hit, rfl⟩
  -- every task of the second run with actions is skipped up to date
  have hskip2 : ∀ f ∈ list_all_files srcT, ∀ (i tot : Nat) (a0 : Action)
      (arest : List Action), actionsOf f = a0 :: arest →
      process_file args
        ⟨srcT,
          (run_tasks args
            (clean_up_missing_files args ⟨srcT, destT, p0.getD []⟩)
            (make_file_tasks actionsOf (list_all_files srcT).length 1
              (list_all_files srcT))).1.destT,
          commit (clean_up_missing_files args ⟨srcT, destT, p0.getD []⟩).db
            (run_tasks args
              (clean_up_missing_files args ⟨srcT, destT, p0.getD []⟩)
              (make_file_tasks actionsOf (list_all_files srcT).length 1
                (list_all_files srcT))).2.1⟩
        ⟨i, tot, f, actionsOf f⟩
      = .ok ⟨(run_tasks args
          (clean_up_missing_files args ⟨srcT, destT, p0.getD []⟩)
          (make_file_tasks actionsOf (list_all_files srcT).length 1
            (list_all_files srcT))).1.destT, none, 0, true⟩ := by
    intro f hf i tot a0 arest hacase
    rcases Option.isSome_iff_exists.mp (hout f a0 arest hacase) with
      ⟨raw, hraw⟩
    rcases Option.ne_none_iff_exists.mp (hfmem f hf) with ⟨c, hc⟩
    have hc2 : lookupA srcT f = some c := hc.symm
    have hff := hfile f hf a0 arest hacase raw hraw c hc2
    have hneeds : needs_processing args
        (commit (clean_up_missing_files args ⟨srcT, destT, p0.getD []⟩).db
          (run_tasks args
            (clean_up_missing_files args ⟨srcT, destT, p0.getD []⟩)
            (make_file_tasks actionsOf (list_all_files srcT).length 1
              (list_all_files srcT))).2.1)
        (run_tasks args
          (clean_up_missing_files args ⟨srcT, destT, p0.getD []⟩)
          (make_file_tasks actionsOf (list_all_files srcT).length 1
            (list_all_files srcT))).1.destT
        f (correct_path_fat32 raw) (calculate_hash args.md5 c) = false := by
      apply (needs_processing_eq_false args _ _ _ _ _).mpr
      refine ⟨hforce, ?_, hff.2⟩
      rcases hff.1 with ⟨o2, ho2⟩
      exact get_item_snd_some.mpr ⟨o2, ho2⟩
    have hrun := process_file_skip args
      ⟨srcT,
        (run_tasks args
          (clean_up_missing_files args ⟨srcT, destT, p0.getD []⟩)
          (make_file_tasks actionsOf (list_all_files srcT).length 1
            (list_all_files srcT))).1.destT,
        commit (clean_up_missing_files args ⟨srcT, destT, p0.getD []⟩).db
          (run_tasks args
            (clean_up_missing_files args ⟨srcT, destT, p0.getD []⟩)
            (make_file_tasks actionsOf (list_all_files srcT).length 1
              (list_all_files srcT))).2.1⟩
      i tot f a0 arest raw c hraw hc2 hneeds
    rw [hacase]
    exact hrun
  -- hence the second processing loop does nothing
  have hrun2 := run_tasks_all_skip args
    (make_file_tasks actionsOf (list_all_files srcT).length 1
      (list_all_files srcT))
    ⟨srcT,
      (run_tasks args
        (clean_up_missing_files args ⟨srcT, destT, p0.getD []⟩)
        (make_file_tasks actionsOf (list_all_files srcT).length 1
          (list_all_files srcT))).1.destT,
      commit (clean_up_missing_files args ⟨srcT, destT, p0.getD []⟩).db
        (run_tasks args
          (clean_up_missing_files args ⟨srcT, destT, p0.getD []⟩)
          (make_file_tasks actionsOf (list_all_files srcT).length 1
            (list_all_files srcT))).2.1⟩
    (by
      intro t ht
      obtain ⟨i, tot, f, acts⟩ := t
      have hf := (htmem _ ht).1
      have hacts := (htmem _ ht).2
      cases hacase : actionsOf f with
      | nil =>
        rw [hacase] at hacts
        subst hacts
        exact ⟨false, rfl⟩
      | cons a0 arest =>
        rw [hacase] at hacts
        subst hacts
        have h2 := hskip2 f hf i tot a0 arest hacase
        rw [hacase] at h2
        exact ⟨true, h2⟩)
  -- the second run returns the first run destination and commits nothing
  have hr2 : sync_audio args actionsOf
      (some (commit
        (clean_up_missing_files args ⟨srcT, destT, p0.getD []⟩).db
        (run_tasks args
          (clean_up_missing_files args ⟨srcT, destT, p0.getD []⟩)
          (make_file_tasks actionsOf (list_all_files srcT).length 1
            (list_all_files srcT))).2.1))
      srcT
      (run_tasks args
        (clean_up_missing_files args ⟨srcT, destT, p0.getD []⟩)
        (make_file_tasks actionsOf (list_all_files srcT).length 1
          (list_all_files srcT))).1.destT =
      { persisted := some (commit
          (clean_up_missing_files args ⟨srcT, destT, p0.getD []⟩).db
          (run_tasks args
            (clean_up_missing_files args ⟨srcT, destT, p0.getD []⟩)
            (make_file_tasks actionsOf (list_all_files srcT).length 1
              (list_all_files srcT))).2.1),
        destT := (run_tasks args
          (clean_up_missing_files args ⟨srcT, destT, p0.getD []⟩)
          (make_file_tasks actionsOf (list_all_files srcT).length 1
            (list_all_files srcT))).1.destT,
        failed := false,
        invocations := 0 } := by
    rw [sync_audio_run_eq args actionsOf _ srcT _ hfiles, hsw]
    rw [show (clean_up_missing_files args
        ⟨srcT,
          (run_tasks args
            (clean_up_missing_files args ⟨srcT, destT, p0.getD []⟩)
            (make_file_tasks actionsOf (list_all_files srcT).length 1
              (list_all_files srcT))).1.destT,
          (some (commit
            (clean_up_missing_files args ⟨srcT, destT, p0.getD []⟩).db
            (run_tasks args
              (clean_up_missing_files args ⟨srcT, destT, p0.getD []⟩)
              (make_file_tasks actionsOf (list_all_files srcT).length 1
                (list_all_files srcT))).2.1)).getD []⟩) =
        (⟨srcT,
          (run_tasks args
            (clean_up_missing_files args ⟨srcT, destT, p0.getD []⟩)
            (make_file_tasks actionsOf (list_all_files srcT).length 1
              (list_all_files srcT))).1.destT,
          commit (clean_up_missing_files args ⟨srcT, destT, p0.getD []⟩).db
            (run_tasks args
              (clean_up_missing_files args ⟨srcT, destT, p0.getD []⟩)
              (make_file_tasks actionsOf (list_all_files srcT).length 1
                (list_all_files srcT))).2.1⟩ : SyncState) from hclean2]
    rw [hrun2, commit_nones]
    rfl
  -- assemble the three conclusions
  refine ⟨?_, ?_, ?_⟩
  · rw [hr1]
    show (sync_audio args actionsOf
      (some (commit
        (clean_up_missing_files args ⟨srcT, destT, p0.getD []⟩).db
        (run_tasks args
          (clean_up_missing_files args ⟨srcT, destT, p0.getD []⟩)
          (make_file_tasks actionsOf (list_all_files srcT).length 1
            (list_all_files srcT))).2.1))
      srcT
      (run_tasks args
        (clean_up_missing_files args ⟨srcT, destT, p0.getD []⟩)
        (make_file_tasks actionsOf (list_all_files srcT).length 1
          (list_all_files srcT))).1.destT).invocations = 0
    rw [hr2]
  · rw [hr1]
    show (sync_audio args actionsOf
      (some (commit
        (clean_up_missing_files args ⟨srcT, destT, p0.getD []⟩).db
        (run_tasks args
          (clean_up_missing_files args ⟨srcT, destT, p0.getD []⟩)
          (make_file_tasks actionsOf (list_all_files srcT).length 1
            (list_all_files srcT))).2.1))
      srcT
      (run_tasks args
        (clean_up_missing_files args ⟨srcT, destT, p0.getD []⟩)
        (make_file_tasks actionsOf (list_all_files srcT).length 1
          (list_all_files srcT))).1.destT).destT =
      (run_tasks args
        (clean_up_missing_files args ⟨srcT, destT, p0.getD []⟩)
        (make_file_tasks actionsOf (list_all_files srcT).length 1
          (list_all_files srcT))).1.destT
    rw [hr2]
  · rw [hr1]
    dsimp only
    intro f hf i tot hne
    cases hacase : actionsOf f with
    | nil => exact absurd hacase hne
    | cons a0 arest =>
      have h2 := hskip2 f hf i tot a0 arest hacase
      rw [hacase] at h2
      exact h2

/-- Witness for C2: one source file copied on the first run, skipped up to
date on the second. -/
theorem sync_audio_idempotent_witness :
    (sync_audio demo_args (fun _ => [copy_action])
      (sync_audio demo_args (fun _ => [copy_action]) none
        [("x.mp3", [1, 2])] []).persisted
      [("x.mp3", [1, 2])]
      (sync_audio demo_args (fun _ => [copy_action]) none
        [("x.mp3", [1, 2])] []).destT).invocations = 0
    ∧ (sync_audio demo_args (fun _ => [copy_action])
      (sync_audio demo_args (fun _ => [copy_action]) none
        [("x.mp3", [1, 2])] []).persisted
      [("x.mp3", [1, 2])]
      (sync_audio demo_args (fun _ => [copy_action]) none
        [("x.mp3", [1, 2])] []).destT).destT
      = (sync_audio demo_args (fun _ => [copy_action]) none
        [("x.mp3", [1, 2])] []).destT
    ∧ (∀ f ∈ list_all_files [("x.mp3", [1, 2])], ∀ i tot : Nat,
        (fun _ : Path => [copy_action]) f ≠ [] →
        process_file demo_args
          ⟨[("x.mp3", [1, 2])],
            (sync_audio demo_args (fun _ => [copy_action]) none
              [("x.mp3", [1, 2])] []).destT,
            ((sync_audio demo_args (fun _ => [copy_action]) none
              [("x.mp3", [1, 2])] []).persisted).getD []⟩
          ⟨i, tot, f, [copy_action]⟩
        = .ok ⟨(sync_audio demo_args (fun _ => [copy_action]) none
            [("x.mp3", [1, 2])] []).destT, none, 0, true⟩) :=
  sync_audio_idempotent demo_args (fun _ => [copy_action]) none
    [("x.mp3", [1, 2])] [] rfl rfl (fun _ => rfl) rfl (by decide) (by decide)
    (fun f a0 rest h => by
      injection h with h1 h2
      subst h1
      rfl)
    (fun f a ha s d => by
      have h1 : a = copy_action := List.mem_singleton.mp ha
      subst h1
      rfl)

/-- Witness for C3 on `orphan_state`: batch mode, existing destination,
successful unlink. -/
theorem clean_up_orphan_record_witness :
    (((lookupA orphan_state.destT "gone.mp3").isSome →
        demo_args.unlinkFails "gone.mp3" = false →
      lookupA (clean_up_missing_files demo_args orphan_state).destT "gone.mp3"
          = none
      ∧ lookupA (clean_up_missing_files demo_args orphan_state).db "gone.mp3"
          = none)
    ∧ ((lookupA orphan_state.destT "gone.mp3").isSome →
        demo_args.unlinkFails "gone.mp3" = true →
      lookupA (clean_up_missing_files demo_args orphan_state).db "gone.mp3"
          = some ("gone.mp3", "h")
      ∧ lookupA (clean_up_missing_files demo_args orphan_state).destT "gone.mp3"
          = lookupA orphan_state.destT "gone.mp3")
    ∧ (lookupA orphan_state.destT "gone.mp3" = none →
      lookupA (clean_up_missing_files demo_args orphan_state).db "gone.mp3"
          = none
      ∧ lookupA (clean_up_missing_files demo_args orphan_state).destT "gone.mp3"
          = none)
    ∧ (lookupA (clean_up_missing_files demo_args orphan_state).db "gone.mp3"
          = none
        ↔ lookupA (clean_up_missing_files demo_args orphan_state).destT
            "gone.mp3" = none)) :=
  clean_up_orphan_record demo_args orphan_state "gone.mp3" "gone.mp3" "h"
    rfl rfl (by simp [orphan_state, db_items]) (by simp [orphan_state])
    (by
      intro k' o' h'' hm hk
      simp [orphan_state, db_items] at hm
      exact absurd hm.1 hk)

end SyncMusic
